import Mathlib

/-!
Verification development for the OUROCHRONOS virtual machine and fixed-point
driver (Rust sources: `core_types.rs`, `provenance.rs`, `ast.rs`, `vm.rs`,
`timeloop.rs`, `types.rs`).

The Rust code is embedded shallowly:

* `u64` values are `Nat` with arithmetic reduced modulo `2 ^ 64` exactly where
  the source wraps; `u16` addresses are `Fin 65536`.
* The unchecked `u16` additions `base + index` in the `Pack`/`Unpack`/`Index`/
  `Store` opcode arms overflow for large operands.  The source uses plain `+`
  (in contrast with the deliberate `wrapping_*` calls used for all `u64`
  arithmetic), which aborts the process under overflow checks; this is
  modelled by the `panic` outcome.
* `run_epoch` mutates state through `&mut`; the embedding threads `VmState`
  and the executor state explicitly.  The unbounded `while` loop of the
  interpreter is driven by a fuel parameter; exhausting fuel is reported by
  the distinguished `fuelout` outcome, which models no Rust behaviour.
* The interactive `stdin` fallback of the `Input` opcode is modelled by a
  stream `stdin : Nat → Nat` together with a cursor `stdin_pos` counting the
  interactive reads performed so far.

The statement constructors `TemporalScope` and the opcodes `Roll`, `Reverse`,
`StrRev`, `StrCat`, `StrSplit`, `Assert` are declared in `ast.rs` but have no
arms in `Executor::execute_op` / `execute_stmt` nor in
`TypeChecker::check_op` / `check_stmt` in this snapshot; both files implement
exactly the same statement and opcode fragment, which is what is embedded
here.
-/

namespace Ourochronos

/-- `MEMORY_SIZE` from `core_types.rs`: the address space has `2 ^ 16` cells. -/
def MEMORY_SIZE : Nat := 65536

/-- `Address` from `core_types.rs` (`u16`). -/
abbrev Address := Fin MEMORY_SIZE

/-- The modulus of `u64` arithmetic. -/
def U64 : Nat := 2 ^ 64

/-- Narrowing a 64-bit stack value to an address (`val as Address`). -/
def toAddr (n : Nat) : Address := ⟨n % MEMORY_SIZE, Nat.mod_lt _ (by norm_num [MEMORY_SIZE])⟩

/-- Bitwise complement of a `u64` (`!v` in Rust). -/
def u64not (v : Nat) : Nat := (U64 - 1) - v % U64

/-- `Provenance` from `provenance.rs`: an optional set of addresses
(`Option<Rc<BTreeSet<Address>>>`). -/
structure Provenance where
  deps : Option (Finset Address)
deriving DecidableEq

namespace Provenance

/-- `Provenance::none`. -/
def none : Provenance := ⟨Option.none⟩

/-- `Provenance::single`. -/
def single (addr : Address) : Provenance := ⟨some {addr}⟩

/-- `Provenance::merge`: union of the dependency sets. -/
def merge (p q : Provenance) : Provenance :=
  match p.deps, q.deps with
  | Option.none, Option.none => none
  | some d, Option.none => ⟨some d⟩
  | Option.none, some d => ⟨some d⟩
  | some d₁, some d₂ => ⟨some (d₁ ∪ d₂)⟩

/-- Modelled from the spec: `Provenance::is_pure` is called from
`core_types.rs` and `types.rs` but is absent from `provenance.rs` in this
snapshot.  Per §3.1/§4.3 of the spec a value is pure when no oracle cell
influenced it, i.e. when the dependency set is absent. -/
def is_pure (p : Provenance) : Bool := p.deps.isNone

/-- Modelled from the spec: `Provenance::is_temporal`, the negation of
`is_pure` (spec glossary: Temporal means derived from at least one oracle
read). -/
def is_temporal (p : Provenance) : Bool := !p.deps.isNone

end Provenance

/-- `Value` from `core_types.rs`: a 64-bit word with provenance. -/
structure Value where
  val : Nat
  prov : Provenance
deriving DecidableEq

namespace Value

/-- `Value::ZERO`. -/
def ZERO : Value := ⟨0, Provenance.none⟩

/-- `Value::new`: a value with no provenance. -/
def new (v : Nat) : Value := ⟨v, Provenance.none⟩

/-- `Value::to_bool`: zero is false, anything else true. -/
def to_bool (v : Value) : Bool := v.val ≠ 0

/-- `Value::from_bool_with_prov`. -/
def from_bool_with_prov (b : Bool) (prov : Provenance) : Value :=
  ⟨if b then 1 else 0, prov⟩

/-- `impl Add for Value`: wrapping addition with merged provenance. -/
def add (a b : Value) : Value := ⟨(a.val + b.val) % U64, a.prov.merge b.prov⟩

/-- `impl Sub for Value`: wrapping subtraction with merged provenance
(`wrapping_sub` on `u64` is addition of the two's complement). -/
def sub (a b : Value) : Value :=
  ⟨(a.val % U64 + (U64 - b.val % U64)) % U64, a.prov.merge b.prov⟩

/-- `impl Mul for Value`. -/
def mul (a b : Value) : Value := ⟨(a.val * b.val) % U64, a.prov.merge b.prov⟩

/-- `impl Div for Value`: division by zero yields zero; provenance merged. -/
def div (a b : Value) : Value :=
  ⟨if b.val = 0 then 0 else a.val / b.val, a.prov.merge b.prov⟩

/-- `impl Rem for Value`: modulo by zero yields zero; provenance merged. -/
def rem (a b : Value) : Value :=
  ⟨if b.val = 0 then 0 else a.val % b.val, a.prov.merge b.prov⟩

/-- `impl Not for Value`: bitwise complement, provenance passed through. -/
def bnot (a : Value) : Value := ⟨u64not a.val, a.prov⟩

/-- `impl BitAnd for Value`. -/
def band (a b : Value) : Value := ⟨a.val &&& b.val, a.prov.merge b.prov⟩

/-- `impl BitOr for Value`. -/
def bor (a b : Value) : Value := ⟨a.val ||| b.val, a.prov.merge b.prov⟩

/-- `impl BitXor for Value`. -/
def bxor (a b : Value) : Value := ⟨a.val ^^^ b.val, a.prov.merge b.prov⟩

end Value

/-- `Memory` from `core_types.rs`: 65536 cells plus the incrementally
maintained hash.  The `Vec<Value>` of fixed length 65536 is embedded as a
total function on `Address`. -/
structure Memory where
  cells : Address → Value
  cached_hash : Nat

namespace Memory

/-- `Memory::hash_mix`: the per-cell hash contribution; zero values
contribute nothing. -/
def hash_mix (addr : Address) (val : Nat) : Nat :=
  if val = 0 then 0
  else
    let h := (val * 0x517cc1b727220a95) % U64
    let h := (h + addr.val) % U64
    let h := h ^^^ (h >>> 33)
    let h := (h * 0xc4ceb9fe1a85ec53) % U64
    h ^^^ (h >>> 33)

/-- `Memory::new`: all cells zero, cached hash zero. -/
def new : Memory := ⟨fun _ => Value.ZERO, 0⟩

/-- `Memory::read`. -/
def read (m : Memory) (addr : Address) : Value := m.cells addr

/-- `Memory::write`: update the cell and toggle the hash contributions when
the 64-bit value changes. -/
def write (m : Memory) (addr : Address) (v : Value) : Memory :=
  let old_val := (m.cells addr).val
  let new_val := v.val
  { cells := Function.update m.cells addr v
    cached_hash :=
      if old_val ≠ new_val then
        m.cached_hash ^^^ hash_mix addr old_val ^^^ hash_mix addr new_val
      else m.cached_hash }

/-- The ascending scan of `Memory::values_equal` (`i` is the next address,
the second argument counts the remaining cells). -/
def values_equal_go (m₁ m₂ : Memory) : Nat → Nat → Bool
  | _, 0 => true
  | i, k + 1 =>
    ((m₁.cells (toAddr i)).val == (m₂.cells (toAddr i)).val) &&
      values_equal_go m₁ m₂ (i + 1) k

/-- `Memory::values_equal`: cell-by-cell equality of `val` from address 0
upward, ignoring provenance. -/
def values_equal (m₁ m₂ : Memory) : Bool := values_equal_go m₁ m₂ 0 MEMORY_SIZE

/-- The ascending scan of `Memory::diff`, accumulating in reverse. -/
def diff_go (m₁ m₂ : Memory) : Nat → Nat → List Address → List Address
  | _, 0, acc => acc.reverse
  | i, k + 1, acc =>
    diff_go m₁ m₂ (i + 1) k
      (if (m₁.cells (toAddr i)).val ≠ (m₂.cells (toAddr i)).val then
        toAddr i :: acc
      else acc)

/-- `Memory::diff`: addresses whose 64-bit values differ, in increasing
order. -/
def diff (m₁ m₂ : Memory) : List Address := diff_go m₁ m₂ 0 MEMORY_SIZE []

/-- The ascending scan of `Memory::non_zero_cells`, accumulating in
reverse. -/
def non_zero_cells_go (m : Memory) :
    Nat → Nat → List (Address × Value) → List (Address × Value)
  | _, 0, acc => acc.reverse
  | i, k + 1, acc =>
    non_zero_cells_go m (i + 1) k
      (if (m.cells (toAddr i)).val ≠ 0 then (toAddr i, m.cells (toAddr i)) :: acc
      else acc)

/-- `Memory::non_zero_cells`: the non-zero cells in address order. -/
def non_zero_cells (m : Memory) : List (Address × Value) :=
  non_zero_cells_go m 0 MEMORY_SIZE []

/-- `Memory::state_hash`: O(1) read of the cached hash. -/
def state_hash (m : Memory) : Nat := m.cached_hash

/-- The from-scratch hash (`Memory::recompute_hash`): XOR over all cells of
the mixing function — zero cells contribute 0 because `hash_mix` returns 0
for them. -/
def recompute_hash (m : Memory) : Nat :=
  ((List.finRange MEMORY_SIZE).map fun a => hash_mix a (m.cells a).val).foldr
    (fun x y => x ^^^ y) 0

end Memory

/-- `OpCode` from `ast.rs`, restricted to the fragment that both
`Executor::execute_op` (`vm.rs`) and `TypeChecker::check_op` (`types.rs`)
implement.  The declared opcodes `Roll`, `Reverse`, `StrRev`, `StrCat`,
`StrSplit` and `Assert` have no match arm in either file in this snapshot
and are therefore not part of the executable language embedded here. -/
inductive OpCode where
  | Nop | Halt | Pop | Dup | Swap | Over | Rot | Depth | Pick
  | Add | Sub | Mul | Div | Mod | Neg
  | Not | And | Or | Xor | Shl | Shr
  | Eq | Neq | Lt | Gt | Lte | Gte
  | Oracle | Prophecy | PresentRead | Paradox
  | Pack | Unpack | Index | Store
  | Input | Output
deriving DecidableEq

/-- `Stmt` from `ast.rs`, restricted to the constructors interpreted by
`Executor::execute_stmt` and `TypeChecker::check_stmt` (the declared
`TemporalScope` constructor has no arm in either). -/
inductive Stmt where
  | Op (op : OpCode)
  | Push (v : Value)
  | If (then_branch : List Stmt) (else_branch : Option (List Stmt))
  | While (cond : List Stmt) (body : List Stmt)
  | Block (stmts : List Stmt)
  | Call (name : String)
  | Match (cases : List (Nat × List Stmt)) (default : Option (List Stmt))

/-- `Procedure` from `ast.rs` (fields used by the engine). -/
structure Procedure where
  name : String
  params : List String
  returns : Nat
  body : List Stmt

/-- `Program` from `ast.rs`. -/
structure Program where
  procedures : List Procedure
  body : List Stmt

namespace Program

mutual

/-- `Program::contains_oracle` from `ast.rs`: a recursive scan of the
statement list.  Note that the source descends into `If`, `While`, `Block`
(and `TemporalScope`) but the wildcard arm `_ => {}` skips `Match` and
`Call`, so oracles inside match arms or procedures are not seen. -/
def contains_oracle : List Stmt → Bool
  | [] => false
  | stmt :: rest => contains_oracle_stmt stmt || contains_oracle rest

/-- The per-statement case analysis of `Program::contains_oracle` (the body
of its `for` loop). -/
def contains_oracle_stmt : Stmt → Bool
  | .Op op => op == .Oracle
  | .If t e =>
    contains_oracle t ||
      (match e with
       | some es => contains_oracle es
       | Option.none => false)
  | .While c b => contains_oracle c || contains_oracle b
  | .Block inner => contains_oracle inner
  | _ => false

end

/-- `Program::is_trivially_consistent`. -/
def is_trivially_consistent (p : Program) : Bool := !contains_oracle p.body

end Program

/-- `EpochStatus` from `vm.rs`. -/
inductive EpochStatus where
  | Running
  | Finished
  | Paradox
  | Error (msg : String)
deriving DecidableEq

/-- `VmState` from `vm.rs`.  The operand stack is a list with its head as
the top (Rust pushes/pops at the end of the `Vec`). -/
structure VmState where
  stack : List Value
  present : Memory
  anamnesis : Memory
  output : List Value
  status : EpochStatus
  instructions_executed : Nat

namespace VmState

/-- `VmState::new`: fresh state for one epoch. -/
def new (anamnesis : Memory) : VmState :=
  { stack := []
    present := Memory.new
    anamnesis := anamnesis
    output := []
    status := .Running
    instructions_executed := 0 }

end VmState

/-- `ExecutorConfig` from `vm.rs`. -/
structure ExecutorConfig where
  max_instructions : Nat
  immediate_output : Bool
  input : List Nat

/-- `ExecutorConfig::default`. -/
def ExecutorConfig.default : ExecutorConfig :=
  { max_instructions := 10000000, immediate_output := true, input := [] }

/-- The mutable executor state (`Executor::input_cursor`) together with the
position in the interactive `stdin` stream — the latter models the external
world consumed by `read_input_interactive`, which is not a Rust field. -/
structure ExecSt where
  input_cursor : Nat
  stdin_pos : Nat
deriving DecidableEq

/-- Outcome of executing a statement or block: `ok` is Rust `Ok(())`,
`err` is `Err(msg)` (the state mutated so far is retained, as with `&mut`),
`panic` is a Rust panic (`unreachable!` or an overflowing `u16` addition
under overflow checks), and `fuelout` is the out-of-fuel artifact of the
embedding. -/
inductive Outcome where
  | ok
  | err (msg : String)
  | panic
  | fuelout
deriving DecidableEq

/-- Result of one interpreter step: the threaded state, the executor/world
state, and the outcome. -/
structure StepRes where
  st : VmState
  ex : ExecSt
  out : Outcome

/-- The `u16` effective-address addition `base + index` of the memory-block
opcodes.  The source uses the plain `+` operator on `u16`, so an overflowing
sum aborts (it is not narrowed modulo `2 ^ 16`); `none` models the abort. -/
def addrAdd (a b : Nat) : Option Address :=
  if h : a + b < MEMORY_SIZE then some ⟨a + b, h⟩ else Option.none

/-- The `Pack` loop of `execute_op`: `k` is the number of iterations left;
iteration `i` of the source (with `k = n - i` values remaining) pops a value
and writes it to `base + ((n - 1 - i) as u16) = base + (k - 1) % 2^16`. -/
def packLoop (base : Address) : Nat → VmState → ExecSt → StepRes
  | 0, st, ex => ⟨st, ex, .ok⟩
  | k + 1, st, ex =>
    match st.stack with
    | [] => ⟨st, ex, .err ("Stack underflow")⟩
    | v :: rest =>
      match addrAdd base.val (k % MEMORY_SIZE) with
      | some a =>
        packLoop base k { st with stack := rest, present := st.present.write a v } ex
      | Option.none => ⟨{ st with stack := rest }, ex, .panic⟩

/-- The `Unpack` loop of `execute_op`: pushes `present[base + i]` for
`i = 0, …, n-1`; `k` is the number of iterations left. -/
def unpackLoop (base : Address) : Nat → Nat → VmState → ExecSt → StepRes
  | _, 0, st, ex => ⟨st, ex, .ok⟩
  | i, k + 1, st, ex =>
    match addrAdd base.val (i % MEMORY_SIZE) with
    | some a =>
      unpackLoop base (i + 1) k { st with stack := st.present.read a :: st.stack } ex
    | Option.none => ⟨st, ex, .panic⟩

/-- `Executor::execute_op` from `vm.rs`.  The operand stack is head-on-top;
for a binary operation the source pops `b` then `a`, so the stack is
`b :: a :: rest`. -/
def execute_op (cfg : ExecutorConfig) (stdin : Nat → Nat) (op : OpCode)
    (st : VmState) (ex : ExecSt) : StepRes :=
  match op with
  | .Nop => ⟨st, ex, .ok⟩
  | .Halt => ⟨{ st with status := .Finished }, ex, .ok⟩
  | .Pop =>
    match st.stack with
    | [] => ⟨st, ex, .err ("Stack underflow")⟩
    | _ :: rest => ⟨{ st with stack := rest }, ex, .ok⟩
  | .Dup =>
    match st.stack with
    | [] => ⟨st, ex, .err ("Stack underflow")⟩
    | a :: rest => ⟨{ st with stack := a :: a :: rest }, ex, .ok⟩
  | .Pick =>
    match st.stack with
    | [] => ⟨st, ex, .err ("Stack underflow")⟩
    | n_val :: rest =>
      let n := n_val.val
      if n ≥ rest.length then
        ⟨{ st with stack := rest }, ex,
          .err (("Pick out of bounds: index " ++ toString n) ++
            (" but depth " ++ toString rest.length))⟩
      else
        ⟨{ st with stack := rest.getD n Value.ZERO :: rest }, ex, .ok⟩
  | .Swap =>
    match st.stack with
    | a :: b :: rest => ⟨{ st with stack := b :: a :: rest }, ex, .ok⟩
    | _ => ⟨{ st with stack := [] }, ex, .err ("Stack underflow")⟩
  | .Over =>
    match st.stack with
    | a :: b :: rest => ⟨{ st with stack := b :: a :: b :: rest }, ex, .ok⟩
    | _ => ⟨st, ex, .err ("Stack underflow: OVER requires 2 elements")⟩
  | .Rot =>
    match st.stack with
    | a :: b :: c :: rest => ⟨{ st with stack := c :: a :: b :: rest }, ex, .ok⟩
    | _ => ⟨st, ex, .err ("Stack underflow: ROT requires 3 elements")⟩
  | .Depth =>
    ⟨{ st with stack := Value.new st.stack.length :: st.stack }, ex, .ok⟩
  | .Add =>
    match st.stack with
    | b :: a :: rest => ⟨{ st with stack := a.add b :: rest }, ex, .ok⟩
    | _ => ⟨{ st with stack := [] }, ex, .err ("Stack underflow")⟩
  | .Sub =>
    match st.stack with
    | b :: a :: rest => ⟨{ st with stack := a.sub b :: rest }, ex, .ok⟩
    | _ => ⟨{ st with stack := [] }, ex, .err ("Stack underflow")⟩
  | .Mul =>
    match st.stack with
    | b :: a :: rest => ⟨{ st with stack := a.mul b :: rest }, ex, .ok⟩
    | _ => ⟨{ st with stack := [] }, ex, .err ("Stack underflow")⟩
  | .Div =>
    match st.stack with
    | b :: a :: rest => ⟨{ st with stack := a.div b :: rest }, ex, .ok⟩
    | _ => ⟨{ st with stack := [] }, ex, .err ("Stack underflow")⟩
  | .Mod =>
    match st.stack with
    | b :: a :: rest => ⟨{ st with stack := a.rem b :: rest }, ex, .ok⟩
    | _ => ⟨{ st with stack := [] }, ex, .err ("Stack underflow")⟩
  | .Neg =>
    match st.stack with
    | [] => ⟨st, ex, .err ("Stack underflow")⟩
    | a :: rest =>
      ⟨{ st with stack := ⟨(U64 - a.val % U64) % U64, a.prov⟩ :: rest }, ex, .ok⟩
  | .Not =>
    match st.stack with
    | [] => ⟨st, ex, .err ("Stack underflow")⟩
    | a :: rest => ⟨{ st with stack := a.bnot :: rest }, ex, .ok⟩
  | .And =>
    match st.stack with
    | b :: a :: rest => ⟨{ st with stack := a.band b :: rest }, ex, .ok⟩
    | _ => ⟨{ st with stack := [] }, ex, .err ("Stack underflow")⟩
  | .Or =>
    match st.stack with
    | b :: a :: rest => ⟨{ st with stack := a.bor b :: rest }, ex, .ok⟩
    | _ => ⟨{ st with stack := [] }, ex, .err ("Stack underflow")⟩
  | .Xor =>
    match st.stack with
    | b :: a :: rest => ⟨{ st with stack := a.bxor b :: rest }, ex, .ok⟩
    | _ => ⟨{ st with stack := [] }, ex, .err ("Stack underflow")⟩
  | .Shl =>
    match st.stack with
    | n :: a :: rest =>
      ⟨{ st with stack :=
          ⟨(a.val <<< (n.val % 64)) % U64, a.prov.merge n.prov⟩ :: rest }, ex, .ok⟩
    | _ => ⟨{ st with stack := [] }, ex, .err ("Stack underflow")⟩
  | .Shr =>
    match st.stack with
    | n :: a :: rest =>
      ⟨{ st with stack :=
          ⟨(a.val % U64) >>> (n.val % 64), a.prov.merge n.prov⟩ :: rest }, ex, .ok⟩
    | _ => ⟨{ st with stack := [] }, ex, .err ("Stack underflow")⟩
  | .Eq =>
    match st.stack with
    | b :: a :: rest =>
      ⟨{ st with stack :=
          Value.from_bool_with_prov (a.val == b.val) (a.prov.merge b.prov) :: rest },
        ex, .ok⟩
    | _ => ⟨{ st with stack := [] }, ex, .err ("Stack underflow")⟩
  | .Neq =>
    match st.stack with
    | b :: a :: rest =>
      ⟨{ st with stack :=
          Value.from_bool_with_prov (a.val != b.val) (a.prov.merge b.prov) :: rest },
        ex, .ok⟩
    | _ => ⟨{ st with stack := [] }, ex, .err ("Stack underflow")⟩
  | .Lt =>
    match st.stack with
    | b :: a :: rest =>
      ⟨{ st with stack :=
          Value.from_bool_with_prov (decide (a.val < b.val)) (a.prov.merge b.prov) :: rest },
        ex, .ok⟩
    | _ => ⟨{ st with stack := [] }, ex, .err ("Stack underflow")⟩
  | .Gt =>
    match st.stack with
    | b :: a :: rest =>
      ⟨{ st with stack :=
          Value.from_bool_with_prov (decide (b.val < a.val)) (a.prov.merge b.prov) :: rest },
        ex, .ok⟩
    | _ => ⟨{ st with stack := [] }, ex, .err ("Stack underflow")⟩
  | .Lte =>
    match st.stack with
    | b :: a :: rest =>
      ⟨{ st with stack :=
          Value.from_bool_with_prov (decide (a.val ≤ b.val)) (a.prov.merge b.prov) :: rest },
        ex, .ok⟩
    | _ => ⟨{ st with stack := [] }, ex, .err ("Stack underflow")⟩
  | .Gte =>
    match st.stack with
    | b :: a :: rest =>
      ⟨{ st with stack :=
          Value.from_bool_with_prov (decide (b.val ≤ a.val)) (a.prov.merge b.prov) :: rest },
        ex, .ok⟩
    | _ => ⟨{ st with stack := [] }, ex, .err ("Stack underflow")⟩
  | .Oracle =>
    match st.stack with
    | [] => ⟨st, ex, .err ("Stack underflow")⟩
    | addr_val :: rest =>
      let addr := toAddr addr_val.val
      let v := st.anamnesis.read addr
      let prov := (v.prov.merge (Provenance.single addr)).merge addr_val.prov
      ⟨{ st with stack := ⟨v.val, prov⟩ :: rest }, ex, .ok⟩
  | .Prophecy =>
    match st.stack with
    | addr_val :: v :: rest =>
      ⟨{ st with
          stack := rest
          present := st.present.write (toAddr addr_val.val) v }, ex, .ok⟩
    | _ => ⟨{ st with stack := [] }, ex, .err ("Stack underflow")⟩
  | .PresentRead =>
    match st.stack with
    | [] => ⟨st, ex, .err ("Stack underflow")⟩
    | addr_val :: rest =>
      let addr := toAddr addr_val.val
      let v := st.present.read addr
      ⟨{ st with stack := ⟨v.val, v.prov.merge addr_val.prov⟩ :: rest }, ex, .ok⟩
  | .Paradox => ⟨{ st with status := .Paradox }, ex, .ok⟩
  | .Input =>
    if ex.input_cursor < cfg.input.length then
      ⟨{ st with stack := Value.new (cfg.input.getD ex.input_cursor 0) :: st.stack },
        { ex with input_cursor := ex.input_cursor + 1 }, .ok⟩
    else
      ⟨{ st with stack := Value.new (stdin ex.stdin_pos % U64) :: st.stack },
        { ex with stdin_pos := ex.stdin_pos + 1 }, .ok⟩
  | .Output =>
    match st.stack with
    | [] => ⟨st, ex, .err ("Stack underflow")⟩
    | v :: rest => ⟨{ st with stack := rest, output := st.output ++ [v] }, ex, .ok⟩
  | .Pack =>
    match st.stack with
    | n_val :: base_val :: rest =>
      packLoop (toAddr base_val.val) n_val.val { st with stack := rest } ex
    | _ => ⟨{ st with stack := [] }, ex, .err ("Stack underflow")⟩
  | .Unpack =>
    match st.stack with
    | n_val :: base_val :: rest =>
      unpackLoop (toAddr base_val.val) 0 n_val.val { st with stack := rest } ex
    | _ => ⟨{ st with stack := [] }, ex, .err ("Stack underflow")⟩
  | .Index =>
    match st.stack with
    | index_val :: base_val :: rest =>
      match addrAdd (toAddr base_val.val).val (toAddr index_val.val).val with
      | some a =>
        ⟨{ st with stack := st.present.read a :: rest }, ex, .ok⟩
      | Option.none => ⟨{ st with stack := rest }, ex, .panic⟩
    | _ => ⟨{ st with stack := [] }, ex, .err ("Stack underflow")⟩
  | .Store =>
    match st.stack with
    | index_val :: base_val :: v :: rest =>
      match addrAdd (toAddr base_val.val).val (toAddr index_val.val).val with
      | some a =>
        ⟨{ st with stack := rest, present := st.present.write a v }, ex, .ok⟩
      | Option.none => ⟨{ st with stack := rest }, ex, .panic⟩
    | _ => ⟨{ st with stack := [] }, ex, .err ("Stack underflow")⟩

/-- The pending work of the statement interpreter: a block with status/gas
checks (`execute_block`), a single statement (`execute_stmt`), the `loop` of
a `While` arm, the case scan of a `Match` arm, and the check-free statement
loop of a match-case body. -/
inductive ExecTask where
  | block (stmts : List Stmt)
  | stmt (s : Stmt)
  | whileLoop (cond body : List Stmt)
  | matchCases (v : Nat) (cases : List (Nat × List Stmt)) (default : Option (List Stmt))
  | stmtSeq (stmts : List Stmt)

/-- The combined interpreter for the mutually recursive statement-execution
functions of `vm.rs`, by structural recursion on the fuel (each Rust call
costs one unit; `fuelout` models no Rust behaviour). -/
def exec (cfg : ExecutorConfig) (stdin : Nat → Nat) :
    Nat → ExecTask → VmState → ExecSt → StepRes
  | 0, _, st, ex => ⟨st, ex, .fuelout⟩
  | fuel + 1, task, st, ex =>
    match task with
    | .block stmts =>
      match stmts with
      | [] => ⟨st, ex, .ok⟩
      | stmt :: rest =>
        if st.status ≠ .Running then ⟨st, ex, .ok⟩
        else if st.instructions_executed ≥ cfg.max_instructions then
          ⟨{ st with status := .Error ("Instruction limit exceeded") }, ex, .ok⟩
        else
          match exec cfg stdin fuel (.stmt stmt) st ex with
          | ⟨st', ex', .ok⟩ => exec cfg stdin fuel (.block rest) st' ex'
          | r => r
    | .stmt s =>
      let st' := { st with instructions_executed := st.instructions_executed + 1 }
      match s with
      | .Op op => execute_op cfg stdin op st' ex
      | .Push v => ⟨{ st' with stack := v :: st'.stack }, ex, .ok⟩
      | .Block stmts => exec cfg stdin fuel (.block stmts) st' ex
      | .If then_branch else_branch =>
        match st'.stack with
        | [] => ⟨st', ex, .err ("Stack underflow")⟩
        | cond :: rest =>
          let st'' := { st' with stack := rest }
          if cond.to_bool then exec cfg stdin fuel (.block then_branch) st'' ex
          else
            match else_branch with
            | some else_stmts => exec cfg stdin fuel (.block else_stmts) st'' ex
            | Option.none => ⟨st'', ex, .ok⟩
      | .While cond body => exec cfg stdin fuel (.whileLoop cond body) st' ex
      | .Call name =>
        ⟨st', ex,
          .err (("Procedure call '" ++ name) ++
            "' not inlined - ensure program is preprocessed")⟩
      | .Match cases default =>
        match st'.stack with
        | [] => ⟨st', ex, .err ("Stack underflow")⟩
        | v :: rest =>
          exec cfg stdin fuel (.matchCases v.val cases default)
            { st' with stack := rest } ex
    | .whileLoop cond body =>
      if st.status ≠ .Running then ⟨st, ex, .ok⟩
      else
        match exec cfg stdin fuel (.block cond) st ex with
        | ⟨st₁, ex₁, .ok⟩ =>
          match st₁.stack with
          | [] => ⟨st₁, ex₁, .err ("Stack underflow")⟩
          | result :: rest =>
            let st₂ := { st₁ with stack := rest }
            if !result.to_bool then ⟨st₂, ex₁, .ok⟩
            else
              match exec cfg stdin fuel (.block body) st₂ ex₁ with
              | ⟨st₃, ex₃, .ok⟩ =>
                if st₃.instructions_executed ≥ cfg.max_instructions then
                  ⟨{ st₃ with status := .Error ("Instruction limit in loop") },
                    ex₃, .ok⟩
                else exec cfg stdin fuel (.whileLoop cond body) st₃ ex₃
              | r => r
        | r => r
    | .matchCases v cases default =>
      match cases with
      | [] =>
        match default with
        | some default_body => exec cfg stdin fuel (.stmtSeq default_body) st ex
        | Option.none => ⟨st, ex, .ok⟩
      | (pattern, body) :: restCases =>
        if v = pattern then exec cfg stdin fuel (.stmtSeq body) st ex
        else exec cfg stdin fuel (.matchCases v restCases default) st ex
    | .stmtSeq stmts =>
      match stmts with
      | [] => ⟨st, ex, .ok⟩
      | stmt :: rest =>
        match exec cfg stdin fuel (.stmt stmt) st ex with
        | ⟨st', ex', .ok⟩ => exec cfg stdin fuel (.stmtSeq rest) st' ex'
        | r => r

/-- `Executor::execute_block` from `vm.rs`: before each statement the status
is inspected (short-circuiting on non-`Running` with `Ok`) and the gas limit
is checked. -/
def execute_block (cfg : ExecutorConfig) (stdin : Nat → Nat) (fuel : Nat)
    (stmts : List Stmt) (st : VmState) (ex : ExecSt) : StepRes :=
  exec cfg stdin fuel (.block stmts) st ex

/-- `Executor::execute_stmt` from `vm.rs`: increments the instruction
counter, then dispatches on the statement. -/
def execute_stmt (cfg : ExecutorConfig) (stdin : Nat → Nat) (fuel : Nat)
    (s : Stmt) (st : VmState) (ex : ExecSt) : StepRes :=
  exec cfg stdin fuel (.stmt s) st ex

/-- `EpochResult` from `vm.rs`. -/
structure EpochResult where
  present : Memory
  output : List Value
  status : EpochStatus
  instructions_executed : Nat

/-- The outcome of `Executor::run_epoch`: a returned `EpochResult`, a panic
escaping the call, or the fuel artifact of the embedding. -/
inductive EpochStep where
  | result (r : EpochResult)
  | panic
  | fuelout

/-- `Executor::run_epoch` from `vm.rs`: resets `input_cursor` to 0, runs the
program body on a fresh state, converts a pending `Err` into an `Error`
status, and promotes a still-`Running` status to `Finished`. -/
def run_epoch (cfg : ExecutorConfig) (stdin : Nat → Nat) (fuel : Nat)
    (p : Program) (anamnesis : Memory) (ex : ExecSt) : EpochStep × ExecSt :=
  match execute_block cfg stdin fuel p.body (VmState.new anamnesis)
      { ex with input_cursor := 0 } with
  | ⟨st, ex', .ok⟩ =>
    (.result ⟨st.present, st.output,
      if st.status = .Running then .Finished else st.status,
      st.instructions_executed⟩, ex')
  | ⟨st, ex', .err e⟩ =>
    let st' := { st with status := .Error e }
    (.result ⟨st'.present, st'.output,
      if st'.status = .Running then .Finished else st'.status,
      st'.instructions_executed⟩, ex')
  | ⟨_, ex', .panic⟩ => (.panic, ex')
  | ⟨_, ex', .fuelout⟩ => (.fuelout, ex')

/-- `Direction` from `timeloop.rs`. -/
inductive Direction where
  | Increasing
  | Decreasing
deriving DecidableEq

/-- `ParadoxDiagnosis` from `timeloop.rs`. -/
inductive ParadoxDiagnosis where
  | NegativeLoop (cells : List Address) (explanation : String)
  | Oscillation (cycle : List (List (Address × Nat)))
  | Unknown

/-- `ConvergenceStatus` from `timeloop.rs`. -/
inductive ConvergenceStatus where
  | Consistent (memory : Memory) (output : List Value) (epochs : Nat)
  | Paradox (message : String) (epoch : Nat)
  | Oscillation (period : Nat) (oscillating_cells : List Address)
      (diagnosis : ParadoxDiagnosis)
  | Divergence (diverging_cells : List Address) (direction : Direction)
  | Timeout (max_epochs : Nat)
  | Error (message : String) (epoch : Nat)

/-- `ExecutionMode` from `timeloop.rs`. -/
inductive ExecutionMode where
  | Standard
  | Diagnostic
  | Pure
deriving DecidableEq

/-- `TimeLoopConfig` from `timeloop.rs`. -/
structure TimeLoopConfig where
  max_epochs : Nat
  mode : ExecutionMode
  seed : Nat
  verbose : Bool

/-- `TimeLoopConfig::default`. -/
def TimeLoopConfig.default : TimeLoopConfig :=
  { max_epochs := 10000, mode := .Standard, seed := 0, verbose := false }

/-- What a call of `TimeLoop::run` produces: a `ConvergenceStatus`, an
escaping panic, or the fuel artifact of the embedding. -/
inductive DriverOut where
  | status (s : ConvergenceStatus)
  | panic
  | fuelout

/-- The executor configuration built by `TimeLoop::new`: the default with
`immediate_output` set to `verbose` (the frozen input list stays empty). -/
def TimeLoop.new_exec_config (cfg : TimeLoopConfig) : ExecutorConfig :=
  { ExecutorConfig.default with immediate_output := cfg.verbose }

/-- `TimeLoop::create_initial_anamnesis`: a nonzero seed fills cells 0‥15
with `seed * (i + 1) mod 2 ^ 64`. -/
def create_initial_anamnesis (cfg : TimeLoopConfig) : Memory :=
  if cfg.seed ≠ 0 then
    (List.range 16).foldl
      (fun m i => m.write (toAddr i) (Value.new (cfg.seed * (i + 1) % U64)))
      Memory.new
  else Memory.new

/-- `TimeLoop::find_oscillating_cells`: the addresses among the first 256
whose value differs from the first state somewhere in the cycle. -/
def find_oscillating_cells (states : List Memory) : List Address :=
  match states with
  | [] => []
  | first :: restStates =>
    ((List.range 256).filter fun i =>
      restStates.any fun s => (s.read (toAddr i)).val ≠ (first.read (toAddr i)).val).map
        toAddr

/-- The cycle listing of the generic oscillation diagnosis: the non-zero
cells of each state. -/
def oscillation_cycle (states : List Memory) : List (List (Address × Nat)) :=
  states.map fun s => s.non_zero_cells.map fun av => (av.1, av.2.val)

/-- The explanation string of the `NegativeLoop` diagnosis. -/
def negloop_explanation (addr : Address) (v₁ v₂ : Nat) : String :=
  (("Cell " ++ toString addr.val) ++ (" oscillates between " ++ toString v₁)) ++
    ((" and " ++ toString v₂) ++
      ". This is a grandfather paradox: the cell's value determines its own opposite.")

/-- `TimeLoop::create_oscillation_diagnosis`: the `NegativeLoop`
classification applies only when the given state list has length exactly 2,
exactly one cell differs, and the two values show the negation pattern;
otherwise the generic cycle diagnosis is produced. -/
def create_oscillation_diagnosis (states : List Memory) : ParadoxDiagnosis :=
  if states.length = 2 then
    match states with
    | s₀ :: s₁ :: _ =>
      match s₀.diff s₁ with
      | [addr] =>
        let v₁ := (s₀.read addr).val
        let v₂ := (s₁.read addr).val
        if v₁ = u64not v₂ ∨ (v₁ = 0 ∧ v₂ ≠ 0) ∨ (v₁ ≠ 0 ∧ v₂ = 0) then
          .NegativeLoop [addr] (negloop_explanation addr v₁ v₂)
        else .Oscillation (oscillation_cycle states)
      | _ => .Oscillation (oscillation_cycle states)
    | _ => .Oscillation (oscillation_cycle states)
  else .Oscillation (oscillation_cycle states)

/-- The abort-aware result of re-running the cycle inside
`TimeLoop::diagnose_oscillation`. -/
inductive Collected where
  | ok (states : List Memory) (ex : ExecSt)
  | panic (ex : ExecSt)
  | fuelout (ex : ExecSt)

/-- The re-run loop of `TimeLoop::diagnose_oscillation`: pushes the current
anamnesis and steps it through `run_epoch`, `count` times; every epoch's
present is taken regardless of its status. -/
def collect_states (ecfg : ExecutorConfig) (stdin : Nat → Nat) (fuel : Nat)
    (p : Program) : Nat → Memory → ExecSt → Collected
  | 0, _, ex => .ok [] ex
  | count + 1, current, ex =>
    match run_epoch ecfg stdin fuel p current ex with
    | (.result r, ex') =>
      match collect_states ecfg stdin fuel p count r.present ex' with
      | .ok states ex'' => .ok (current :: states) ex''
      | ab => ab
    | (.panic, ex') => .panic ex'
    | (.fuelout, ex') => .fuelout ex'

/-- `TimeLoop::diagnose_oscillation` (used by the Standard mode): re-runs
`period + 1` epochs from the repeated anamnesis and classifies the resulting
`period + 1` states. -/
def diagnose_oscillation (ecfg : ExecutorConfig) (stdin : Nat → Nat) (fuel : Nat)
    (p : Program) (anamnesis : Memory) (period : Nat) (ex : ExecSt) :
    DriverOut × ExecSt :=
  match collect_states ecfg stdin fuel p (period + 1) anamnesis ex with
  | .ok states ex' =>
    (.status (.Oscillation period (find_oscillating_cells states)
      (create_oscillation_diagnosis states)), ex')
  | .panic ex' => (.panic, ex')
  | .fuelout ex' => (.fuelout, ex')

/-- The epoch loop of `TimeLoop::run_standard`; `remaining` counts the
epochs left of `max_epochs`, `seen_states` is the hash → first-epoch map. -/
def run_standard_loop (cfg : TimeLoopConfig) (ecfg : ExecutorConfig)
    (stdin : Nat → Nat) (fuel : Nat) (p : Program) :
    Nat → Nat → Memory → List (Nat × Nat) → ExecSt → DriverOut × ExecSt
  | 0, _, _, _, ex => (.status (.Timeout cfg.max_epochs), ex)
  | remaining + 1, epoch, anamnesis, seen_states, ex =>
    let state_hash := anamnesis.state_hash
    match List.lookup state_hash seen_states with
    | some previous_epoch =>
      diagnose_oscillation ecfg stdin fuel p anamnesis (epoch - previous_epoch) ex
    | Option.none =>
      let seen' := (state_hash, epoch) :: seen_states
      match run_epoch ecfg stdin fuel p anamnesis ex with
      | (.result r, ex') =>
        match r.status with
        | .Finished =>
          if r.present.values_equal anamnesis then
            (.status (.Consistent r.present r.output (epoch + 1)), ex')
          else
            run_standard_loop cfg ecfg stdin fuel p remaining (epoch + 1) r.present
              seen' ex'
        | .Paradox =>
          (.status (.Paradox ("Explicit PARADOX instruction") (epoch + 1)), ex')
        | .Error e => (.status (.Error e (epoch + 1)), ex')
        | .Running =>
          run_standard_loop cfg ecfg stdin fuel p remaining (epoch + 1) anamnesis
            seen' ex'
      | (.panic, ex') => (.panic, ex')
      | (.fuelout, ex') => (.fuelout, ex')

/-- `TimeLoop::run_standard`. -/
def run_standard (cfg : TimeLoopConfig) (ecfg : ExecutorConfig)
    (stdin : Nat → Nat) (fuel : Nat) (p : Program) (ex : ExecSt) :
    DriverOut × ExecSt :=
  run_standard_loop cfg ecfg stdin fuel p cfg.max_epochs 0
    (create_initial_anamnesis cfg) [] ex

/-- `TimeLoop::detect_divergence`: a cell among the first 256 whose value is
strictly monotone along the whole trajectory (of length ≥ 5) witnesses
divergence; the direction reported is the one of the last such cell. -/
def detect_divergence (trajectory : List Memory) :
    Option (List Address × Direction) :=
  if trajectory.length < 5 then Option.none
  else
    let scan := (List.range 256).foldl
      (fun acc i =>
        let addr := toAddr i
        let values := trajectory.map fun m => (m.read addr).val
        let increasing := (values.zip values.tail).all fun w => decide (w.1 < w.2)
        let decreasing := (values.zip values.tail).all fun w => decide (w.2 < w.1)
        if increasing then (acc.1 ++ [addr], Direction.Increasing)
        else if decreasing then (acc.1 ++ [addr], Direction.Decreasing)
        else acc)
      (([] : List Address), Direction.Increasing)
    if scan.1.isEmpty then Option.none else some scan

/-- The epoch loop of `TimeLoop::run_diagnostic`: like the standard loop but
with trajectory recording, cycle slicing from the trajectory, and a
divergence check past epoch 10. -/
def run_diagnostic_loop (cfg : TimeLoopConfig) (ecfg : ExecutorConfig)
    (stdin : Nat → Nat) (fuel : Nat) (p : Program) :
    Nat → Nat → Memory → List Memory → List (Nat × Nat) → ExecSt →
      DriverOut × ExecSt
  | 0, _, _, _, _, ex => (.status (.Timeout cfg.max_epochs), ex)
  | remaining + 1, epoch, anamnesis, trajectory, seen_states, ex =>
    let state_hash := anamnesis.state_hash
    match List.lookup state_hash seen_states with
    | some previous_epoch =>
      let period := epoch - previous_epoch
      let cyc := trajectory.drop previous_epoch
      (.status (.Oscillation period (find_oscillating_cells cyc)
        (create_oscillation_diagnosis cyc)), ex)
    | Option.none =>
      let seen' := (state_hash, epoch) :: seen_states
      let trajectory' := trajectory ++ [anamnesis]
      match
        if 10 < epoch then detect_divergence trajectory' else Option.none with
      | some cd => (.status (.Divergence cd.1 cd.2), ex)
      | Option.none =>
        match run_epoch ecfg stdin fuel p anamnesis ex with
        | (.result r, ex') =>
          match r.status with
          | .Finished =>
            if r.present.values_equal anamnesis then
              (.status (.Consistent r.present r.output (epoch + 1)), ex')
            else
              run_diagnostic_loop cfg ecfg stdin fuel p remaining (epoch + 1)
                r.present trajectory' seen' ex'
          | .Paradox =>
            (.status (.Paradox ("Explicit PARADOX instruction") (epoch + 1)), ex')
          | .Error e => (.status (.Error e (epoch + 1)), ex')
          | .Running =>
            run_diagnostic_loop cfg ecfg stdin fuel p remaining (epoch + 1)
              anamnesis trajectory' seen' ex'
        | (.panic, ex') => (.panic, ex')
        | (.fuelout, ex') => (.fuelout, ex')

/-- `TimeLoop::run_diagnostic`. -/
def run_diagnostic (cfg : TimeLoopConfig) (ecfg : ExecutorConfig)
    (stdin : Nat → Nat) (fuel : Nat) (p : Program) (ex : ExecSt) :
    DriverOut × ExecSt :=
  run_diagnostic_loop cfg ecfg stdin fuel p cfg.max_epochs 0
    (create_initial_anamnesis cfg) [] [] ex

/-- The loop of `TimeLoop::run_pure`: unbounded iteration with the safety
cap `epoch > 1_000_000`.  Called with `remaining = 1_000_001` the zero case
is unreachable (the safety cap fires first); it is mapped to the fuel
artifact. -/
def run_pure_loop (ecfg : ExecutorConfig) (stdin : Nat → Nat) (fuel : Nat)
    (p : Program) : Nat → Nat → Memory → ExecSt → DriverOut × ExecSt
  | 0, _, _, ex => (.fuelout, ex)
  | remaining + 1, epoch, anamnesis, ex =>
    match run_epoch ecfg stdin fuel p anamnesis ex with
    | (.result r, ex') =>
      let epoch' := epoch + 1
      match r.status with
      | .Finished =>
        if r.present.values_equal anamnesis then
          (.status (.Consistent r.present r.output epoch'), ex')
        else if 1000000 < epoch' then (.status (.Timeout epoch'), ex')
        else run_pure_loop ecfg stdin fuel p remaining epoch' r.present ex'
      | .Paradox =>
        (.status (.Paradox ("Explicit PARADOX instruction") epoch'), ex')
      | .Error e => (.status (.Error e epoch'), ex')
      | .Running =>
        if 1000000 < epoch' then (.status (.Timeout epoch'), ex')
        else run_pure_loop ecfg stdin fuel p remaining epoch' anamnesis ex'
    | (.panic, ex') => (.panic, ex')
    | (.fuelout, ex') => (.fuelout, ex')

/-- `TimeLoop::run_pure`. -/
def run_pure (cfg : TimeLoopConfig) (ecfg : ExecutorConfig)
    (stdin : Nat → Nat) (fuel : Nat) (p : Program) (ex : ExecSt) :
    DriverOut × ExecSt :=
  run_pure_loop ecfg stdin fuel p 1000001 0 (create_initial_anamnesis cfg) ex

/-- `TimeLoop::run_trivial`: one epoch on the all-zero anamnesis; the
`unreachable!()` arm for a `Running` status is a panic. -/
def run_trivial (ecfg : ExecutorConfig) (stdin : Nat → Nat) (fuel : Nat)
    (p : Program) (ex : ExecSt) : DriverOut × ExecSt :=
  match run_epoch ecfg stdin fuel p Memory.new ex with
  | (.result r, ex') =>
    match r.status with
    | .Finished => (.status (.Consistent r.present r.output 1), ex')
    | .Paradox => (.status (.Paradox ("Explicit PARADOX in trivial program") 1), ex')
    | .Error e => (.status (.Error e 1), ex')
    | .Running => (.panic, ex')
  | (.panic, ex') => (.panic, ex')
  | (.fuelout, ex') => (.fuelout, ex')

/-- `TimeLoop::run`: the trivial-consistency shortcut, then the mode
dispatch. -/
def TimeLoop.run (cfg : TimeLoopConfig) (ecfg : ExecutorConfig)
    (stdin : Nat → Nat) (fuel : Nat) (p : Program) (ex : ExecSt) :
    DriverOut × ExecSt :=
  if p.is_trivially_consistent then run_trivial ecfg stdin fuel p ex
  else
    match cfg.mode with
    | .Standard => run_standard cfg ecfg stdin fuel p ex
    | .Diagnostic => run_diagnostic cfg ecfg stdin fuel p ex
    | .Pure => run_pure cfg ecfg stdin fuel p ex

/-- `TemporalType` from `types.rs`. -/
inductive TemporalType where
  | Pure
  | Temporal
  | Unknown
deriving DecidableEq

namespace TemporalType

/-- `TemporalType::join`: `Temporal` is absorbing, `Unknown` is the
identity. -/
def join : TemporalType → TemporalType → TemporalType
  | .Temporal, _ => .Temporal
  | _, .Temporal => .Temporal
  | .Pure, .Pure => .Pure
  | .Unknown, x => x
  | x, .Unknown => x

end TemporalType

/-- `TypeError` from `types.rs` (never actually produced by the checker in
this snapshot: nothing pushes onto `errors`). -/
structure TypeError where
  message : String
  location : Option Nat

/-- The state of `TypeChecker` from `types.rs`.  The abstract stack is
head-on-top; `cell_types` embeds the `HashMap<Address, TemporalType>` as a
partial map. -/
structure TypeChecker where
  stack : List TemporalType
  cell_types : Address → Option TemporalType
  errors : List TypeError
  warnings : List String
  stmt_index : Nat
  in_temporal_branch : Bool

namespace TypeChecker

/-- `TypeChecker::new`. -/
def new : TypeChecker :=
  { stack := []
    cell_types := fun _ => Option.none
    errors := []
    warnings := []
    stmt_index := 0
    in_temporal_branch := false }

/-- `TypeChecker::pop_type`: popping an empty abstract stack yields
`Unknown`. -/
def pop_type (c : TypeChecker) : TemporalType × TypeChecker :=
  match c.stack with
  | [] => (.Unknown, c)
  | t :: rest => (t, { c with stack := rest })

/-- `TypeChecker::peek_type`. -/
def peek_type (c : TypeChecker) : TemporalType := c.stack.headD .Unknown

/-- `TypeChecker::merge_stacks`: join corresponding positions counted from
the bottom, treating missing positions as `Unknown` (the source indexes the
bottom-first vectors directly; the head-on-top lists are reversed around the
scan). -/
def merge_stacks (a b : List TemporalType) : List TemporalType :=
  ((List.range (max a.length b.length)).map fun i =>
    (a.reverse.getD i .Unknown).join (b.reverse.getD i .Unknown)).reverse

/-- `TypeChecker::check_op` from `types.rs`. -/
def check_op (op : OpCode) (c : TypeChecker) : TypeChecker :=
  match op with
  | .Oracle =>
    let (addr_type, c) := c.pop_type
    let c :=
      if addr_type = .Temporal then
        { c with warnings := c.warnings ++
            [("ORACLE address is Temporal at stmt " ++ toString c.stmt_index) ++
              ": address depends on future"] }
      else c
    { c with stack := .Temporal :: c.stack }
  | .Prophecy =>
    let (addr_type, c) := c.pop_type
    let (value_type, c) := c.pop_type
    let c :=
      if addr_type = .Temporal then
        { c with warnings := c.warnings ++
            [("PROPHECY address is Temporal at stmt " ++ toString c.stmt_index) ++
              ": writing to future-dependent address"] }
      else c
    { c with cell_types := Function.update c.cell_types (toAddr 0) (some value_type) }
  | .PresentRead =>
    let (addr_type, c) := c.pop_type
    let result := if c.in_temporal_branch then TemporalType.Temporal else addr_type
    { c with stack := result :: c.stack }
  | .Pop => (c.pop_type).2
  | .Dup => { c with stack := c.peek_type :: c.stack }
  | .Swap =>
    match c.stack with
    | a :: b :: rest => { c with stack := b :: a :: rest }
    | _ => c
  | .Over =>
    match c.stack with
    | a :: b :: rest => { c with stack := b :: a :: b :: rest }
    | _ => c
  | .Rot =>
    match c.stack with
    | a :: b :: d :: rest => { c with stack := d :: a :: b :: rest }
    | _ => c
  | .Depth => { c with stack := .Pure :: c.stack }
  | .Pick =>
    let c := (c.pop_type).2
    { c with stack := .Unknown :: c.stack }
  | .Nop => c
  | .Neg => c
  | .Add | .Sub | .Mul | .Div | .Mod =>
    let (b, c) := c.pop_type
    let (a, c) := c.pop_type
    { c with stack := a.join b :: c.stack }
  | .And | .Or | .Xor | .Shl | .Shr =>
    let (b, c) := c.pop_type
    let (a, c) := c.pop_type
    { c with stack := a.join b :: c.stack }
  | .Not => c
  | .Eq | .Neq | .Lt | .Gt | .Lte | .Gte =>
    let (b, c) := c.pop_type
    let (a, c) := c.pop_type
    { c with stack := a.join b :: c.stack }
  | .Input => { c with stack := .Pure :: c.stack }
  | .Output => (c.pop_type).2
  | .Halt => c
  | .Paradox => c
  | .Pack =>
    let c := (c.pop_type).2
    (c.pop_type).2
  | .Unpack =>
    let c := (c.pop_type).2
    let c := (c.pop_type).2
    { c with stack := .Unknown :: c.stack }
  | .Index =>
    let c := (c.pop_type).2
    let c := (c.pop_type).2
    { c with stack := .Temporal :: c.stack }
  | .Store =>
    let c := (c.pop_type).2
    let c := (c.pop_type).2
    (c.pop_type).2

mutual

/-- `TypeChecker::check_stmt` from `types.rs`. -/
def check_stmt (stmt : Stmt) (c : TypeChecker) : TypeChecker :=
  match stmt with
  | .Push v =>
    let ty := if v.prov.is_pure then TemporalType.Pure else TemporalType.Temporal
    { c with stack := ty :: c.stack }
  | .Op op => check_op op c
  | .If then_branch else_branch =>
    let (cond_type, c) := c.pop_type
    let was_temporal := c.in_temporal_branch
    let c :=
      if cond_type = .Temporal then { c with in_temporal_branch := true } else c
    let stack_before := c.stack
    let c := check_statements then_branch c
    let then_stack := c.stack
    let c := { c with stack := stack_before }
    let c :=
      match else_branch with
      | some else_stmts => check_statements else_stmts c
      | Option.none => c
    let else_stack := c.stack
    { c with
        stack := merge_stacks then_stack else_stack
        in_temporal_branch := was_temporal }
  | .While cond body =>
    let stack_before := c.stack
    let c := check_statements cond c
    let (cond_type, c) := c.pop_type
    let c :=
      if cond_type = .Temporal then
        { c with
            warnings := c.warnings ++
              [("Loop condition is Temporal at stmt " ++ toString c.stmt_index) ++
                ": loop behavior may depend on future"]
            in_temporal_branch := true }
      else c
    let c := check_statements body c
    { c with stack := stack_before }
  | .Block stmts => check_statements stmts c
  | .Call _ => { c with stack := .Unknown :: c.stack }
  | .Match cases default =>
    let c := (c.pop_type).2
    let c := check_cases cases c
    match default with
    | some default_body => check_body default_body c
    | Option.none => c

/-- `TypeChecker::check_statements`: checks each statement and increments
`stmt_index`. -/
def check_statements (stmts : List Stmt) (c : TypeChecker) : TypeChecker :=
  match stmts with
  | [] => c
  | stmt :: rest =>
    let c := check_stmt stmt c
    check_statements rest { c with stmt_index := c.stmt_index + 1 }

/-- The case loop of the `Stmt::Match` arm of `check_stmt` (each case body
statement is checked directly, without incrementing `stmt_index`). -/
def check_cases (cases : List (Nat × List Stmt)) (c : TypeChecker) : TypeChecker :=
  match cases with
  | [] => c
  | (_, body) :: rest => check_cases rest (check_body body c)

/-- The direct statement loop over a match-case or default body. -/
def check_body (body : List Stmt) (c : TypeChecker) : TypeChecker :=
  match body with
  | [] => c
  | stmt :: rest => check_body rest (check_stmt stmt c)

end

end TypeChecker

/-- `TypeCheckResult` from `types.rs`. -/
structure TypeCheckResult where
  is_valid : Bool
  errors : List TypeError
  warnings : List String
  cell_types : Address → Option TemporalType
  final_stack_types : List TemporalType

/-- `TypeChecker::check`. -/
def TypeChecker.check (p : Program) : TypeCheckResult :=
  let c := TypeChecker.check_statements p.body TypeChecker.new
  { is_valid := c.errors.isEmpty
    errors := c.errors
    warnings := c.warnings
    cell_types := c.cell_types
    final_stack_types := c.stack }

/-- `type_check` from `types.rs`. -/
def type_check (p : Program) : TypeCheckResult := TypeChecker.check p

/-! ### Observation helpers and concrete fixtures

The projections below extract comparable data (numbers, booleans, lists of
numbers) from driver and epoch results, so that concrete runs can be settled
by kernel evaluation. -/

/-- An all-zero interactive input stream. -/
def stdin_zero : Nat → Nat := fun _ => 0

/-- The executor/world state at process start: cursor 0, no interactive
reads. -/
def ex_init : ExecSt := ⟨0, 0⟩

/-- Whether a driver outcome is a `Consistent` status. -/
def DriverOut.isConsistentB : DriverOut → Bool
  | .status (.Consistent _ _ _) => true
  | _ => false

/-- Whether a diagnosis is the `NegativeLoop` classification. -/
def ParadoxDiagnosis.isNegativeLoopB : ParadoxDiagnosis → Bool
  | .NegativeLoop _ _ => true
  | _ => false

/-- Summary of an `Oscillation` outcome: the period, the oscillating cell
indices, and whether the diagnosis is `NegativeLoop`. -/
def DriverOut.oscSummary : DriverOut → Option (Nat × List Nat × Bool)
  | .status (.Oscillation p cells d) =>
    some (p, cells.map (fun a => a.val), d.isNegativeLoopB)
  | _ => Option.none

/-- For a `Consistent{memory = M}` outcome, re-run one epoch on `M` and
report whether the resulting present is value-equal to `M` (the fixed-point
property of the claim); `none` for any other outcome. -/
def fixed_point_recheck (ecfg : ExecutorConfig) (stdin : Nat → Nat) (fuel : Nat)
    (p : Program) : DriverOut → Option Bool
  | .status (.Consistent M _ _) =>
    match (run_epoch ecfg stdin fuel p M ex_init).1 with
    | .result r => some (r.present.values_equal M)
    | _ => Option.none
  | _ => Option.none

/-- The value of a present cell together with the final status of an epoch
result. -/
def EpochStep.cell_status (a : Address) : EpochStep → Option (Nat × EpochStatus)
  | .result r => some ((r.present.read a).val, r.status)
  | _ => Option.none

/-- The output values of an epoch result. -/
def EpochStep.outputs : EpochStep → Option (List Nat)
  | .result r => some (r.output.map fun v => v.val)
  | _ => Option.none

/-- The grandfather-paradox program of the spec:
`Push 0; Oracle; Not; Push 0; Prophecy`. -/
def grandfather_program : Program :=
  ⟨[], [.Push (Value.new 0), .Op .Oracle, .Op .Not, .Push (Value.new 0),
    .Op .Prophecy]⟩

/-- A program whose only `Oracle` sits inside a `Match` arm, where
`Program::contains_oracle` does not look: it reads `A[0]`, adds 1, and
writes the sum to `present[0]`. -/
def match_oracle_program : Program :=
  ⟨[], [.Push (Value.new 0),
    .Match [(0, [.Push (Value.new 0), .Op .Oracle, .Push (Value.new 1),
      .Op .Add, .Push (Value.new 0), .Op .Prophecy])] Option.none]⟩

/-- The one-instruction `Paradox` program (spec scenario 6). -/
def paradox_program : Program := ⟨[], [.Op .Paradox]⟩

/-- A program whose matched case body raises `Paradox` and then writes 7 to
`present[0]`. -/
def match_paradox_program : Program :=
  ⟨[], [.Push (Value.new 0),
    .Match [(0, [.Op .Paradox, .Push (Value.new 7), .Push (Value.new 0),
      .Op .Prophecy])] Option.none]⟩

/-- `Push 65535; Push 1; Index`: the effective address `65535 + 1` does not
fit in a `u16`. -/
def index_overflow_program : Program :=
  ⟨[], [.Push (Value.new 65535), .Push (Value.new 1), .Op .Index]⟩

/-- `Push 0; Push 0; Index`: an oracle-free, present-read-free program
containing `Index`. -/
def index_pure_program : Program :=
  ⟨[], [.Push (Value.new 0), .Push (Value.new 0), .Op .Index]⟩

/-- The executor configuration `TimeLoop::new(default)` builds. -/
def default_run_ecfg : ExecutorConfig := TimeLoop.new_exec_config TimeLoopConfig.default

set_option maxHeartbeats 4000000 in
set_option maxRecDepth 100000 in
/-- C1: the claim "`Consistent{memory = M}` implies `run_epoch(π, M).present`
value-equals `M`" fails on the code: for `match_oracle_program` the driver
takes the trivial-consistency path (`contains_oracle` skips `Match` arms),
returns `Consistent` with `M[0] = 1`, yet re-running the epoch on `M`
produces `present[0] = 2`, so the re-check reports `false`. -/
theorem C1_consistent_result_not_fixed_point :
    fixed_point_recheck default_run_ecfg stdin_zero 100 match_oracle_program
      (TimeLoop.run TimeLoopConfig.default default_run_ecfg stdin_zero 100
        match_oracle_program ex_init).1 = some false := by
  rfl

/-- C2 counterexample: the program consisting of the single `Paradox` opcode
contains no `Oracle` anywhere in its statement tree, yet `TimeLoop::run`
returns `Paradox`, not `Consistent`. -/
theorem C2_counterexample_paradox_program :
    paradox_program.is_trivially_consistent = true ∧
      (TimeLoop.run TimeLoopConfig.default default_run_ecfg stdin_zero 100
        paradox_program ex_init).1.isConsistentB = false := by
  exact ⟨rfl, rfl⟩

set_option maxHeartbeats 4000000 in
set_option maxRecDepth 100000 in
/-- C4: within the body of a matched `Match` case, statements after a status
change still execute: after the explicit `Paradox`, the body writes 7 into
`present[0]`, so the epoch ends with status `Paradox` and `present[0] = 7`
(the claim would require the write to be suppressed). -/
theorem C4_match_body_runs_after_paradox :
    EpochStep.cell_status (toAddr 0)
      (run_epoch default_run_ecfg stdin_zero 100 match_paradox_program
        Memory.new ex_init).1 = some (7, .Paradox) := by
  rfl

/-- C8: the `Index` effective-address computation `base + index` is a plain
`u16` addition; at `base = 65535`, `index = 1` it overflows, aborting the
epoch and the driver run (instead of narrowing the sum modulo `2 ^ 16` and
continuing, as the claim requires). -/
theorem C8_index_effective_address_overflow_panics :
    (run_epoch default_run_ecfg stdin_zero 100 index_overflow_program
      Memory.new ex_init).1 = .panic ∧
    (TimeLoop.run TimeLoopConfig.default default_run_ecfg stdin_zero 100
      index_overflow_program ex_init).1 = .panic := by
  exact ⟨rfl, rfl⟩

/-! A full-tree opcode scanner (unlike `Program::contains_oracle` it also
descends into `Match` arms); used to state the claims' "contains no X
anywhere in its reachable statement tree" hypotheses. -/

mutual

/-- Whether a statement list contains the given opcode anywhere in its
tree. -/
def stmts_contain_op (target : OpCode) : List Stmt → Bool
  | [] => false
  | s :: rest => stmt_contains_op target s || stmts_contain_op target rest

/-- Whether a single statement contains the given opcode anywhere. -/
def stmt_contains_op (target : OpCode) : Stmt → Bool
  | .Op op => op == target
  | .Push _ => false
  | .If t e =>
    stmts_contain_op target t ||
      (match e with
       | some es => stmts_contain_op target es
       | Option.none => false)
  | .While c b => stmts_contain_op target c || stmts_contain_op target b
  | .Block inner => stmts_contain_op target inner
  | .Call _ => false
  | .Match cases d =>
    cases_contain_op target cases ||
      (match d with
       | some db => stmts_contain_op target db
       | Option.none => false)

/-- Whether any match-case body contains the given opcode. -/
def cases_contain_op (target : OpCode) : List (Nat × List Stmt) → Bool
  | [] => false
  | (_, b) :: rest => stmts_contain_op target b || cases_contain_op target rest

end

/-- Whether the program (body and procedure bodies) contains the given
opcode anywhere in its reachable statement tree. -/
def program_contains_op (target : OpCode) (p : Program) : Bool :=
  stmts_contain_op target p.body ||
    p.procedures.any fun pr => stmts_contain_op target pr.body

/-! The temporally-inert statement fragment for the type checker: no
`Oracle`, no `PresentRead`, no `Index`, and every pushed constant
provenance-free. -/

mutual

/-- Whether a statement list stays in the checker's temporally-inert
fragment. -/
def temporal_free_stmts : List Stmt → Bool
  | [] => true
  | s :: rest => temporal_free_stmt s && temporal_free_stmts rest

/-- Whether a statement stays in the checker's temporally-inert fragment. -/
def temporal_free_stmt : Stmt → Bool
  | .Op op => !(op == .Oracle || op == .PresentRead || op == .Index)
  | .Push v => v.prov.is_pure
  | .If t e =>
    temporal_free_stmts t &&
      (match e with
       | some es => temporal_free_stmts es
       | Option.none => true)
  | .While c b => temporal_free_stmts c && temporal_free_stmts b
  | .Block inner => temporal_free_stmts inner
  | .Call _ => true
  | .Match cases d =>
    temporal_free_cases cases &&
      (match d with
       | some db => temporal_free_stmts db
       | Option.none => true)

/-- Whether the match-case bodies stay in the temporally-inert fragment. -/
def temporal_free_cases : List (Nat × List Stmt) → Bool
  | [] => true
  | (_, b) :: rest => temporal_free_stmts b && temporal_free_cases rest

end

/-- C10: (1) `run_epoch` resets the input cursor to 0 before executing, so
its result does not depend on the incoming cursor — input consumption never
carries over between epochs; (2) concretely, running
`Input; Output` twice in succession with frozen inputs `[7, 8]` outputs `7`
in both epochs (the first epoch leaves the cursor at 1, yet the second epoch
again reads input 0). -/
theorem C10_input_cursor_reset_every_epoch :
    (∀ (cfg : ExecutorConfig) (stdin : Nat → Nat) (fuel : Nat) (p : Program)
      (A : Memory) (c sp : Nat),
      run_epoch cfg stdin fuel p A ⟨c, sp⟩ = run_epoch cfg stdin fuel p A ⟨0, sp⟩) ∧
    EpochStep.outputs (run_epoch { default_run_ecfg with input := [7, 8] }
      stdin_zero 100 ⟨[], [.Op .Input, .Op .Output]⟩ Memory.new ex_init).1 =
        some [7] ∧
    (run_epoch { default_run_ecfg with input := [7, 8] } stdin_zero 100
      ⟨[], [.Op .Input, .Op .Output]⟩ Memory.new ex_init).2.input_cursor = 1 ∧
    EpochStep.outputs (run_epoch { default_run_ecfg with input := [7, 8] }
      stdin_zero 100 ⟨[], [.Op .Input, .Op .Output]⟩ Memory.new
      (run_epoch { default_run_ecfg with input := [7, 8] } stdin_zero 100
        ⟨[], [.Op .Input, .Op .Output]⟩ Memory.new ex_init).2).1 = some [7] :=
  ⟨fun _ _ _ _ _ _ _ => rfl, rfl, rfl, rfl⟩

/-- C9 counterexample: `Push 0; Push 0; Index` contains neither `Oracle` nor
`PresentRead` (and its constants are pure), yet `type_check` leaves a
`Temporal` slot as the final stack type: the `Index` arm of `check_op`
pushes `Temporal` unconditionally. -/
theorem C9_counterexample_index_pushes_temporal :
    program_contains_op .Oracle index_pure_program = false ∧
    program_contains_op .PresentRead index_pure_program = false ∧
    (type_check index_pure_program).final_stack_types = [.Temporal] :=
  ⟨rfl, rfl, rfl⟩

/-! ### C5: the incremental memory hash -/

/-- XOR cancellation: `(x ^^^ F) ^^^ x ^^^ y = y ^^^ F`. -/
theorem xor_cancel_left (x y F : Nat) : x ^^^ F ^^^ x ^^^ y = y ^^^ F := by
  rw [Nat.xor_comm x F, Nat.xor_assoc F x x, Nat.xor_self, Nat.xor_zero,
    Nat.xor_comm F y]

/-- Folding XOR over a mapped duplicate-free list after changing the
function at a single member toggles out the old contribution and toggles in
the new one. -/
theorem xfold_map_update (l : List Address) (g₁ g₂ : Address → Nat)
    (a : Address) (ha : a ∈ l) (hnd : l.Nodup)
    (hcong : ∀ x ∈ l, x ≠ a → g₁ x = g₂ x) :
    (l.map g₂).foldr (fun x y => x ^^^ y) 0 =
      (l.map g₁).foldr (fun x y => x ^^^ y) 0 ^^^ g₁ a ^^^ g₂ a := by
  induction l with
  | nil => cases ha
  | cons h t ih =>
    rcases List.mem_cons.mp ha with rfl | hat
    · have hnotmem : a ∉ t := (List.nodup_cons.mp hnd).1
      have hmapeq : t.map g₂ = t.map g₁ := by
        refine List.map_congr_left fun x hx => ?_
        exact (hcong x (List.mem_cons_of_mem _ hx)
          (fun hxa => hnotmem (hxa ▸ hx))).symm
      simp only [List.map_cons, List.foldr_cons, hmapeq]
      rw [xor_cancel_left (g₁ a) (g₂ a)
        ((t.map g₁).foldr (fun x y => x ^^^ y) 0), Nat.xor_comm]
    · have hha : h ≠ a := by
        rintro rfl
        exact (List.nodup_cons.mp hnd).1 hat
      have hgh : g₁ h = g₂ h := hcong h (List.mem_cons_self h t) hha
      have iht := ih hat (List.nodup_cons.mp hnd).2
        (fun x hx hxa => hcong x (List.mem_cons_of_mem _ hx) hxa)
      simp only [List.map_cons, List.foldr_cons, iht, hgh, Nat.xor_assoc]

/-- Folding XOR over a list of zero contributions yields zero. -/
theorem xfold_map_zero (l : List Address) (g : Address → Nat)
    (hg : ∀ x ∈ l, g x = 0) :
    (l.map g).foldr (fun x y => x ^^^ y) 0 = 0 := by
  induction l with
  | nil => rfl
  | cons h t ih =>
    simp only [List.map_cons, List.foldr_cons,
      hg h (List.mem_cons_self h t),
      ih fun x hx => hg x (List.mem_cons_of_mem _ hx), Nat.xor_self]

/-- A single `Memory::write` preserves agreement between the cached hash and
the from-scratch hash. -/
theorem Memory.write_hash_preserved (m : Memory) (a : Address) (v : Value)
    (h : m.cached_hash = m.recompute_hash) :
    (m.write a v).cached_hash = (m.write a v).recompute_hash := by
  have hrec : (m.write a v).recompute_hash =
      m.recompute_hash ^^^ Memory.hash_mix a (m.cells a).val ^^^
        Memory.hash_mix a v.val := by
    unfold Memory.recompute_hash
    have := xfold_map_update (List.finRange MEMORY_SIZE)
      (fun x => Memory.hash_mix x (m.cells x).val)
      (fun x => Memory.hash_mix x (((m.write a v).cells) x).val)
      a (List.mem_finRange a) (List.nodup_finRange MEMORY_SIZE)
      (fun x _ hxa => by
        simp [Memory.write, Function.update_noteq hxa])
    simpa [Memory.write, Function.update_same] using this
  by_cases hval : (m.cells a).val = v.val
  · have : Memory.hash_mix a (m.cells a).val = Memory.hash_mix a v.val := by
      rw [hval]
    rw [hrec, this, Nat.xor_assoc, Nat.xor_self, Nat.xor_zero, ← h]
    simp [Memory.write, hval]
  · rw [hrec, ← h]
    simp [Memory.write, hval]

/-- Applying a list of writes to a fresh memory, in order. -/
def apply_writes (ws : List (Address × Value)) : Memory :=
  ws.foldl (fun m av => m.write av.1 av.2) Memory.new

/-- The invariant holds of the fresh memory. -/
theorem Memory.new_hash_correct : Memory.new.cached_hash = Memory.new.recompute_hash := by
  unfold Memory.recompute_hash
  rw [xfold_map_zero _ _ fun x _ => by simp [Memory.new, Memory.hash_mix, Value.ZERO]]
  rfl

/-- C5: after any finite sequence of writes to a fresh memory, the
incrementally maintained `state_hash` equals the from-scratch XOR of the
per-cell mixing contributions; and the all-zero initial memory hashes to 0
(both incrementally and from scratch). -/
theorem C5_incremental_hash_agrees_with_recompute :
    (∀ ws : List (Address × Value),
      (apply_writes ws).state_hash = (apply_writes ws).recompute_hash) ∧
    Memory.new.state_hash = 0 ∧ Memory.new.recompute_hash = 0 := by
  refine ⟨fun ws => ?_, rfl, ?_⟩
  · have main : ∀ (l : List (Address × Value)) (m : Memory),
        m.cached_hash = m.recompute_hash →
        (l.foldl (fun m av => m.write av.1 av.2) m).cached_hash =
          (l.foldl (fun m av => m.write av.1 av.2) m).recompute_hash := by
      intro l
      induction l with
      | nil => intro m hm; exact hm
      | cons hd tl ih =>
        intro m hm
        exact ih _ (Memory.write_hash_preserved m hd.1 hd.2 hm)
    exact main ws Memory.new Memory.new_hash_correct
  · rw [← Memory.new_hash_correct]; rfl

/-! ### C2: oracle-free programs settle in one epoch -/

mutual

/-- If the full statement tree (match arms included) has no `Oracle`, then
the source's shallower scan `contains_oracle` also reports none. -/
theorem contains_oracle_false_of_tree :
    ∀ l : List Stmt, stmts_contain_op .Oracle l = false →
      Program.contains_oracle l = false
  | [], _ => rfl
  | s :: rest, h =>
    have h' : (stmt_contains_op .Oracle s || stmts_contain_op .Oracle rest)
        = false := h
    have h₁ := (Bool.or_eq_false_iff.mp h').1
    have h₂ := (Bool.or_eq_false_iff.mp h').2
    show (Program.contains_oracle_stmt s || Program.contains_oracle rest) = false
    from Bool.or_eq_false_iff.mpr
      ⟨contains_oracle_stmt_false_of_tree s h₁,
        contains_oracle_false_of_tree rest h₂⟩

/-- Statement version of `contains_oracle_false_of_tree`. -/
theorem contains_oracle_stmt_false_of_tree :
    ∀ s : Stmt, stmt_contains_op .Oracle s = false →
      Program.contains_oracle_stmt s = false
  | .Op _, h => h
  | .Push _, _ => rfl
  | .If t (some es), h =>
    have h' : (stmts_contain_op .Oracle t || stmts_contain_op .Oracle es)
        = false := h
    have h₁ := (Bool.or_eq_false_iff.mp h').1
    have h₂ := (Bool.or_eq_false_iff.mp h').2
    show (Program.contains_oracle t || Program.contains_oracle es) = false
    from Bool.or_eq_false_iff.mpr
      ⟨contains_oracle_false_of_tree t h₁, contains_oracle_false_of_tree es h₂⟩
  | .If t Option.none, h =>
    have h' : (stmts_contain_op .Oracle t || false) = false := h
    have h₁ := (Bool.or_eq_false_iff.mp h').1
    show (Program.contains_oracle t || false) = false
    from Bool.or_eq_false_iff.mpr ⟨contains_oracle_false_of_tree t h₁, rfl⟩
  | .While c b, h =>
    have h' : (stmts_contain_op .Oracle c || stmts_contain_op .Oracle b)
        = false := h
    have h₁ := (Bool.or_eq_false_iff.mp h').1
    have h₂ := (Bool.or_eq_false_iff.mp h').2
    show (Program.contains_oracle c || Program.contains_oracle b) = false
    from Bool.or_eq_false_iff.mpr
      ⟨contains_oracle_false_of_tree c h₁, contains_oracle_false_of_tree b h₂⟩
  | .Block inner, h => contains_oracle_false_of_tree inner h
  | .Call _, _ => rfl
  | .Match _ _, _ => rfl

end

/-- `run_epoch` never reports the `Running` status: the post-execution fixup
promotes `Running` to `Finished`. -/
theorem run_epoch_result_status_ne_running (cfg : ExecutorConfig)
    (stdin : Nat → Nat) (fuel : Nat) (p : Program) (A : Memory) (ex : ExecSt)
    (r : EpochResult) (ex' : ExecSt)
    (h : run_epoch cfg stdin fuel p A ex = (.result r, ex')) :
    r.status ≠ .Running := by
  unfold run_epoch at h
  rcases hstep : execute_block cfg stdin fuel p.body (VmState.new A)
      { ex with input_cursor := 0 } with ⟨st, ex'', out⟩
  rw [hstep] at h
  cases out with
  | ok =>
    simp only [Prod.mk.injEq, EpochStep.result.injEq] at h
    obtain ⟨h₁, -⟩ := h
    rw [← h₁]
    cases hs : st.status <;> simp [hs]
  | err e =>
    simp only [Prod.mk.injEq, EpochStep.result.injEq] at h
    obtain ⟨h₁, -⟩ := h
    rw [← h₁]
    simp
  | panic => simp at h
  | fuelout => simp at h

/-- C2 (amended): for every program whose full reachable statement tree
contains no `Oracle`, the driver takes the trivial-consistency path and
settles in exactly 1 epoch: it returns `Consistent{epochs = 1}` when the
single epoch finishes normally, `Paradox{epoch = 1}` or `Error{epoch = 1}`
otherwise — unless that epoch panics or the embedding's fuel runs out. -/
theorem C2_no_oracle_returns_in_one_epoch (cfg : TimeLoopConfig)
    (ecfg : ExecutorConfig) (stdin : Nat → Nat) (fuel : Nat) (p : Program)
    (ex : ExecSt) (h : program_contains_op .Oracle p = false) :
    (TimeLoop.run cfg ecfg stdin fuel p ex).1 = .fuelout ∨
    (TimeLoop.run cfg ecfg stdin fuel p ex).1 = .panic ∨
    (∃ M out, (TimeLoop.run cfg ecfg stdin fuel p ex).1 =
      .status (.Consistent M out 1)) ∨
    (∃ msg, (TimeLoop.run cfg ecfg stdin fuel p ex).1 =
      .status (.Paradox msg 1)) ∨
    (∃ msg, (TimeLoop.run cfg ecfg stdin fuel p ex).1 =
      .status (.Error msg 1)) := by
  have hb : stmts_contain_op .Oracle p.body = false :=
    (Bool.or_eq_false_iff.mp h).1
  have htriv : p.is_trivially_consistent = true := by
    unfold Program.is_trivially_consistent
    rw [contains_oracle_false_of_tree p.body hb]
    rfl
  unfold TimeLoop.run
  rw [htriv]
  simp only [if_true]
  unfold run_trivial
  rcases hrun : run_epoch ecfg stdin fuel p Memory.new ex with ⟨step, ex'⟩
  cases step with
  | result r =>
    have hs := run_epoch_result_status_ne_running ecfg stdin fuel p
      Memory.new ex r ex' hrun
    cases hstatus : r.status with
    | Running => exact absurd hstatus hs
    | Finished =>
      refine Or.inr (Or.inr (Or.inl ⟨r.present, r.output, ?_⟩))
      simp [hstatus]
    | Paradox =>
      refine Or.inr (Or.inr (Or.inr (Or.inl
        ⟨("Explicit PARADOX in trivial program"), ?_⟩)))
      simp [hstatus]
    | Error e =>
      refine Or.inr (Or.inr (Or.inr (Or.inr ⟨e, ?_⟩)))
      simp [hstatus]
  | panic => exact Or.inr (Or.inl (by simp))
  | fuelout => exact Or.inl (by simp)

/-- The pure-arithmetic program of spec scenario 1:
`Push 10; Push 20; Add; Output`. -/
def pure_arith_program : Program :=
  ⟨[], [.Push (Value.new 10), .Push (Value.new 20), .Op .Add, .Op .Output]⟩

/-- Witness for the amended C2 at the pure-arithmetic program: the
hypothesis holds and the driver indeed returns `Consistent` in 1 epoch. -/
theorem C2_no_oracle_returns_in_one_epoch_witness :
    program_contains_op .Oracle pure_arith_program = false ∧
    ((TimeLoop.run TimeLoopConfig.default default_run_ecfg stdin_zero 100
        pure_arith_program ex_init).1 = .fuelout ∨
      (TimeLoop.run TimeLoopConfig.default default_run_ecfg stdin_zero 100
        pure_arith_program ex_init).1 = .panic ∨
      (∃ M out, (TimeLoop.run TimeLoopConfig.default default_run_ecfg
        stdin_zero 100 pure_arith_program ex_init).1 =
          .status (.Consistent M out 1)) ∨
      (∃ msg, (TimeLoop.run TimeLoopConfig.default default_run_ecfg stdin_zero
        100 pure_arith_program ex_init).1 = .status (.Paradox msg 1)) ∨
      (∃ msg, (TimeLoop.run TimeLoopConfig.default default_run_ecfg stdin_zero
        100 pure_arith_program ex_init).1 = .status (.Error msg 1))) :=
  ⟨rfl, C2_no_oracle_returns_in_one_epoch TimeLoopConfig.default
    default_run_ecfg stdin_zero 100 pure_arith_program ex_init rfl⟩

set_option maxHeartbeats 4000000 in
set_option maxRecDepth 100000 in
/-- C3 counterexample: the grandfather program in default Standard mode does
oscillate with period 2 and oscillating cell 0, but the diagnosis is the
generic `Oscillation`, not `NegativeLoop`: the Standard-mode diagnosis
re-runs the cycle into `period + 1 = 3` states, and the `NegativeLoop`
classification only fires on a state list of length exactly 2. -/
theorem C3_counterexample_standard_mode_generic_diagnosis :
    (TimeLoop.run TimeLoopConfig.default default_run_ecfg stdin_zero 100
      grandfather_program ex_init).1.oscSummary = some (2, [0], false) := by
  rfl

/-- Characterization of the `Memory::diff` scan: it lists, in order, the
addresses of `[i, i + k)` whose values differ (appended to the reversed
accumulator). -/
theorem diff_go_spec (m₁ m₂ : Memory) :
    ∀ (k i : Nat) (acc : List Address),
      Memory.diff_go m₁ m₂ i k acc =
        acc.reverse ++ ((List.range' i k).filter fun j =>
          decide ((m₁.cells (toAddr j)).val ≠ (m₂.cells (toAddr j)).val)).map
            toAddr := by
  intro k
  induction k with
  | zero => intro i acc; simp [Memory.diff_go]
  | succ k ih =>
    intro i acc
    rw [Memory.diff_go, ih]
    by_cases hc : (m₁.cells (toAddr i)).val ≠ (m₂.cells (toAddr i)).val
    · rw [if_pos hc]
      simp [List.range'_succ, List.filter_cons, hc]
    · rw [if_neg hc]
      simp [List.range'_succ, List.filter_cons, hc]

/-- C3 (amended): whenever the diagnosing routine receives a cycle of
exactly 2 states with exactly one differing cell whose values show the
negation pattern, it returns `NegativeLoop` naming that cell; but in default
Standard mode the diagnosis re-runs the cycle into `period + 1` states, so
the grandfather program yields `Oscillation{period 2, cells [0]}` with the
generic diagnosis. -/
theorem C3_negative_loop_two_state_diagnosis :
    (∀ (s₀ s₁ : Memory) (addr : Address),
      Memory.diff s₀ s₁ = [addr] →
      ((s₀.read addr).val = u64not (s₁.read addr).val ∨
        ((s₀.read addr).val = 0 ∧ (s₁.read addr).val ≠ 0) ∨
        ((s₀.read addr).val ≠ 0 ∧ (s₁.read addr).val = 0)) →
      create_oscillation_diagnosis [s₀, s₁] =
        .NegativeLoop [addr]
          (negloop_explanation addr (s₀.read addr).val (s₁.read addr).val)) ∧
    (TimeLoop.run TimeLoopConfig.default default_run_ecfg stdin_zero 100
      grandfather_program ex_init).1.oscSummary = some (2, [0], false) := by
  constructor
  · intro s₀ s₁ addr hdiff hcond
    unfold create_oscillation_diagnosis
    rw [if_pos (by rfl : ([s₀, s₁] : List Memory).length = 2)]
    simp only [hdiff]
    rw [if_pos hcond]
  · rfl

/-- Witness for the amended C3: two concrete states differing exactly at
cell 0, with values `0` and `5` (one of them zero), are classified
`NegativeLoop` at cell 0.  (The differing-cell hypothesis is discharged
symbolically: the single write to cell 0 is the only difference.) -/
theorem C3_negative_loop_two_state_diagnosis_witness :
    Memory.diff Memory.new (Memory.new.write (toAddr 0) (Value.new 5)) =
      [toAddr 0] ∧
    ((Memory.new.read (toAddr 0)).val = 0 ∧
      ((Memory.new.write (toAddr 0) (Value.new 5)).read (toAddr 0)).val ≠ 0) ∧
    create_oscillation_diagnosis
      [Memory.new, Memory.new.write (toAddr 0) (Value.new 5)] =
      .NegativeLoop [toAddr 0]
        (negloop_explanation (toAddr 0) (Memory.new.read (toAddr 0)).val
          ((Memory.new.write (toAddr 0) (Value.new 5)).read (toAddr 0)).val) := by
  have hdiff : Memory.diff Memory.new (Memory.new.write (toAddr 0) (Value.new 5)) =
      [toAddr 0] := by
    unfold Memory.diff
    rw [diff_go_spec]
    have hrest : (List.range' 1 65535).filter (fun j =>
        decide ((Memory.new.cells (toAddr j)).val ≠
          ((Memory.new.write (toAddr 0) (Value.new 5)).cells (toAddr j)).val)) =
        [] := by
      rw [List.filter_eq_nil_iff]
      intro j hj
      have hj1 : 1 ≤ j := (List.mem_range'_1.mp hj).1
      have hj2 : j < 1 + 65535 := (List.mem_range'_1.mp hj).2
      have hms : MEMORY_SIZE = 65536 := rfl
      have hjlt : j < MEMORY_SIZE := by omega
      have hne : toAddr j ≠ toAddr 0 := by
        simp only [toAddr, Ne, Fin.mk.injEq]
        rw [Nat.mod_eq_of_lt hjlt, Nat.zero_mod]
        omega
      simp [Memory.new, Memory.write, Function.update_noteq hne, Value.ZERO]
    have hsz : List.range' 0 MEMORY_SIZE = 0 :: List.range' 1 65535 := by
      rw [show MEMORY_SIZE = 65535 + 1 from rfl, List.range'_succ]
    rw [hsz, List.filter_cons, if_pos (by decide), hrest]
    rfl
  refine ⟨hdiff, ⟨rfl, by decide⟩, ?_⟩
  exact C3_negative_loop_two_state_diagnosis.1 Memory.new
    (Memory.new.write (toAddr 0) (Value.new 5)) (toAddr 0) hdiff
    (Or.inr (Or.inl ⟨rfl, by decide⟩))

/-! ### C9: the temporally-inert fragment produces no Temporal slots -/

/-- The no-`Temporal` invariant of a checker state: no `Temporal` on the
abstract stack, none recorded for a cell, and no pending branch taint. -/
def TypeChecker.NoTemporal (c : TypeChecker) : Prop :=
  (∀ t ∈ c.stack, t ≠ TemporalType.Temporal) ∧
  (∀ a, c.cell_types a ≠ some TemporalType.Temporal) ∧
  c.in_temporal_branch = false

/-- The lattice join of two non-`Temporal` taints is non-`Temporal`. -/
theorem TemporalType.join_ne_temporal {a b : TemporalType}
    (ha : a ≠ .Temporal) (hb : b ≠ .Temporal) : a.join b ≠ .Temporal := by
  cases a <;> cases b <;> simp_all [TemporalType.join]

/-- `pop_type` pops a non-`Temporal` taint and preserves the invariant. -/
theorem TypeChecker.pop_type_no_temporal {c : TypeChecker} (h : c.NoTemporal) :
    (c.pop_type).1 ≠ TemporalType.Temporal ∧ (c.pop_type).2.NoTemporal := by
  obtain ⟨hstack, hcells, hflag⟩ := h
  cases hs : c.stack with
  | nil =>
    have hid : c.pop_type = (.Unknown, c) := by
      simp [TypeChecker.pop_type, hs]
    rw [hid]
    refine ⟨?_, hstack, hcells, hflag⟩
    simp
  | cons t rest =>
    have hid : c.pop_type = (t, { c with stack := rest }) := by
      simp [TypeChecker.pop_type, hs]
    rw [hid]
    constructor
    · exact hstack t (by rw [hs]; exact List.mem_cons_self t rest)
    · refine ⟨?_, hcells, hflag⟩
      intro x hx
      exact hstack x (by rw [hs]; exact List.mem_cons_of_mem t hx)

/-- `peek_type` reads a non-`Temporal` taint under the invariant. -/
theorem TypeChecker.peek_type_no_temporal {c : TypeChecker} (h : c.NoTemporal) :
    c.peek_type ≠ TemporalType.Temporal := by
  obtain ⟨hstack, -, -⟩ := h
  cases hs : c.stack with
  | nil => simp [TypeChecker.peek_type, hs]
  | cons t rest =>
    simp only [TypeChecker.peek_type, hs, List.headD_cons]
    exact hstack t (hs ▸ List.mem_cons_self t rest)

/-- Pushing a non-`Temporal` taint preserves the invariant. -/
theorem TypeChecker.push_no_temporal {c : TypeChecker} (h : c.NoTemporal)
    {t : TemporalType} (ht : t ≠ .Temporal) :
    TypeChecker.NoTemporal { c with stack := t :: c.stack } := by
  obtain ⟨hstack, hcells, hflag⟩ := h
  refine ⟨?_, hcells, hflag⟩
  intro x hx
  rcases List.mem_cons.mp hx with rfl | hx
  · exact ht
  · exact hstack x hx

/-- `merge_stacks` of two non-`Temporal` stacks is non-`Temporal`. -/
theorem TypeChecker.merge_stacks_no_temporal {a b : List TemporalType}
    (ha : ∀ t ∈ a, t ≠ TemporalType.Temporal)
    (hb : ∀ t ∈ b, t ≠ TemporalType.Temporal) :
    ∀ t ∈ TypeChecker.merge_stacks a b, t ≠ TemporalType.Temporal := by
  intro t ht
  unfold TypeChecker.merge_stacks at ht
  rw [List.mem_reverse] at ht
  obtain ⟨i, -, hi⟩ := List.mem_map.mp ht
  have hga : a.reverse.getD i .Unknown ≠ TemporalType.Temporal := by
    rcases Nat.lt_or_ge i a.reverse.length with hlt | hge
    · rw [List.getD_eq_getElem _ _ hlt]
      exact ha _ (List.mem_reverse.mp (List.getElem_mem hlt))
    · rw [List.getD_eq_default _ _ hge]
      simp
  have hgb : b.reverse.getD i .Unknown ≠ TemporalType.Temporal := by
    rcases Nat.lt_or_ge i b.reverse.length with hlt | hge
    · rw [List.getD_eq_getElem _ _ hlt]
      exact hb _ (List.mem_reverse.mp (List.getElem_mem hlt))
    · rw [List.getD_eq_default _ _ hge]
      simp
  rw [← hi]
  exact TemporalType.join_ne_temporal hga hgb

/-- `check_op` preserves the no-`Temporal` invariant for every opcode other
than `Oracle`, `PresentRead` and `Index`. -/
theorem TypeChecker.check_op_no_temporal (op : OpCode) (c : TypeChecker)
    (h : c.NoTemporal) (h1 : op ≠ .Oracle) (h2 : op ≠ .PresentRead)
    (h3 : op ≠ .Index) : (TypeChecker.check_op op c).NoTemporal := by
  obtain ⟨hstack, hcells, hflag⟩ := h
  cases op with
  | Oracle => exact absurd rfl h1
  | PresentRead => exact absurd rfl h2
  | Index => exact absurd rfl h3
  | Prophecy =>
    obtain ⟨ha1, ha2⟩ := TypeChecker.pop_type_no_temporal ⟨hstack, hcells, hflag⟩
    obtain ⟨hv1, hv2⟩ := TypeChecker.pop_type_no_temporal ha2
    simp only [TypeChecker.check_op]
    rw [if_neg ha1]
    obtain ⟨hs', hc', hf'⟩ := hv2
    refine ⟨hs', ?_, hf'⟩
    intro a
    show Function.update (c.pop_type.2.pop_type.2.cell_types) (toAddr 0)
      (some c.pop_type.2.pop_type.1) a ≠ some TemporalType.Temporal
    by_cases hae : a = toAddr 0
    · subst hae
      rw [Function.update_same]
      intro hcontra
      exact hv1 (Option.some.inj hcontra)
    · rw [Function.update_noteq hae]
      exact hc' a
  | Pop => exact (TypeChecker.pop_type_no_temporal ⟨hstack, hcells, hflag⟩).2
  | Dup =>
    exact TypeChecker.push_no_temporal ⟨hstack, hcells, hflag⟩
      (TypeChecker.peek_type_no_temporal ⟨hstack, hcells, hflag⟩)
  | Swap =>
    simp only [TypeChecker.check_op]
    cases hs : c.stack with
    | nil => exact ⟨hstack, hcells, hflag⟩
    | cons a rest =>
      cases rest with
      | nil => exact ⟨hstack, hcells, hflag⟩
      | cons b rest' =>
        have hstack' : ∀ t ∈ a :: b :: rest', t ≠ TemporalType.Temporal := by
          rw [← hs]; exact hstack
        refine ⟨?_, hcells, hflag⟩
        intro x hx
        apply hstack' x
        simp only [List.mem_cons] at hx ⊢
        tauto
  | Over =>
    simp only [TypeChecker.check_op]
    cases hs : c.stack with
    | nil => exact ⟨hstack, hcells, hflag⟩
    | cons a rest =>
      cases rest with
      | nil => exact ⟨hstack, hcells, hflag⟩
      | cons b rest' =>
        have hstack' : ∀ t ∈ a :: b :: rest', t ≠ TemporalType.Temporal := by
          rw [← hs]; exact hstack
        refine ⟨?_, hcells, hflag⟩
        intro x hx
        apply hstack' x
        simp only [List.mem_cons] at hx ⊢
        tauto
  | Rot =>
    simp only [TypeChecker.check_op]
    cases hs : c.stack with
    | nil => exact ⟨hstack, hcells, hflag⟩
    | cons a rest =>
      cases rest with
      | nil => exact ⟨hstack, hcells, hflag⟩
      | cons b rest' =>
        cases rest' with
        | nil => exact ⟨hstack, hcells, hflag⟩
        | cons d rest'' =>
          have hstack' : ∀ t ∈ a :: b :: d :: rest'', t ≠ TemporalType.Temporal := by
            rw [← hs]; exact hstack
          refine ⟨?_, hcells, hflag⟩
          intro x hx
          apply hstack' x
          simp only [List.mem_cons] at hx ⊢
          tauto
  | Depth =>
    exact TypeChecker.push_no_temporal ⟨hstack, hcells, hflag⟩ (by simp)
  | Pick =>
    have hp := (TypeChecker.pop_type_no_temporal ⟨hstack, hcells, hflag⟩).2
    exact TypeChecker.push_no_temporal hp (by simp)
  | Nop => exact ⟨hstack, hcells, hflag⟩
  | Neg => exact ⟨hstack, hcells, hflag⟩
  | Not => exact ⟨hstack, hcells, hflag⟩
  | Halt => exact ⟨hstack, hcells, hflag⟩
  | Paradox => exact ⟨hstack, hcells, hflag⟩
  | Input =>
    exact TypeChecker.push_no_temporal ⟨hstack, hcells, hflag⟩ (by simp)
  | Output => exact (TypeChecker.pop_type_no_temporal ⟨hstack, hcells, hflag⟩).2
  | Pack =>
    exact (TypeChecker.pop_type_no_temporal
      (TypeChecker.pop_type_no_temporal ⟨hstack, hcells, hflag⟩).2).2
  | Unpack =>
    have hp := (TypeChecker.pop_type_no_temporal
      (TypeChecker.pop_type_no_temporal ⟨hstack, hcells, hflag⟩).2).2
    exact TypeChecker.push_no_temporal hp (by simp)
  | Store =>
    exact (TypeChecker.pop_type_no_temporal (TypeChecker.pop_type_no_temporal
      (TypeChecker.pop_type_no_temporal ⟨hstack, hcells, hflag⟩).2).2).2
  | Add =>
    have h1p := TypeChecker.pop_type_no_temporal ⟨hstack, hcells, hflag⟩
    have h2p := TypeChecker.pop_type_no_temporal h1p.2
    exact TypeChecker.push_no_temporal h2p.2
      (TemporalType.join_ne_temporal h2p.1 h1p.1)
  | Sub =>
    have h1p := TypeChecker.pop_type_no_temporal ⟨hstack, hcells, hflag⟩
    have h2p := TypeChecker.pop_type_no_temporal h1p.2
    exact TypeChecker.push_no_temporal h2p.2
      (TemporalType.join_ne_temporal h2p.1 h1p.1)
  | Mul =>
    have h1p := TypeChecker.pop_type_no_temporal ⟨hstack, hcells, hflag⟩
    have h2p := TypeChecker.pop_type_no_temporal h1p.2
    exact TypeChecker.push_no_temporal h2p.2
      (TemporalType.join_ne_temporal h2p.1 h1p.1)
  | Div =>
    have h1p := TypeChecker.pop_type_no_temporal ⟨hstack, hcells, hflag⟩
    have h2p := TypeChecker.pop_type_no_temporal h1p.2
    exact TypeChecker.push_no_temporal h2p.2
      (TemporalType.join_ne_temporal h2p.1 h1p.1)
  | Mod =>
    have h1p := TypeChecker.pop_type_no_temporal ⟨hstack, hcells, hflag⟩
    have h2p := TypeChecker.pop_type_no_temporal h1p.2
    exact TypeChecker.push_no_temporal h2p.2
      (TemporalType.join_ne_temporal h2p.1 h1p.1)
  | And =>
    have h1p := TypeChecker.pop_type_no_temporal ⟨hstack, hcells, hflag⟩
    have h2p := TypeChecker.pop_type_no_temporal h1p.2
    exact TypeChecker.push_no_temporal h2p.2
      (TemporalType.join_ne_temporal h2p.1 h1p.1)
  | Or =>
    have h1p := TypeChecker.pop_type_no_temporal ⟨hstack, hcells, hflag⟩
    have h2p := TypeChecker.pop_type_no_temporal h1p.2
    exact TypeChecker.push_no_temporal h2p.2
      (TemporalType.join_ne_temporal h2p.1 h1p.1)
  | Xor =>
    have h1p := TypeChecker.pop_type_no_temporal ⟨hstack, hcells, hflag⟩
    have h2p := TypeChecker.pop_type_no_temporal h1p.2
    exact TypeChecker.push_no_temporal h2p.2
      (TemporalType.join_ne_temporal h2p.1 h1p.1)
  | Shl =>
    have h1p := TypeChecker.pop_type_no_temporal ⟨hstack, hcells, hflag⟩
    have h2p := TypeChecker.pop_type_no_temporal h1p.2
    exact TypeChecker.push_no_temporal h2p.2
      (TemporalType.join_ne_temporal h2p.1 h1p.1)
  | Shr =>
    have h1p := TypeChecker.pop_type_no_temporal ⟨hstack, hcells, hflag⟩
    have h2p := TypeChecker.pop_type_no_temporal h1p.2
    exact TypeChecker.push_no_temporal h2p.2
      (TemporalType.join_ne_temporal h2p.1 h1p.1)
  | Eq =>
    have h1p := TypeChecker.pop_type_no_temporal ⟨hstack, hcells, hflag⟩
    have h2p := TypeChecker.pop_type_no_temporal h1p.2
    exact TypeChecker.push_no_temporal h2p.2
      (TemporalType.join_ne_temporal h2p.1 h1p.1)
  | Neq =>
    have h1p := TypeChecker.pop_type_no_temporal ⟨hstack, hcells, hflag⟩
    have h2p := TypeChecker.pop_type_no_temporal h1p.2
    exact TypeChecker.push_no_temporal h2p.2
      (TemporalType.join_ne_temporal h2p.1 h1p.1)
  | Lt =>
    have h1p := TypeChecker.pop_type_no_temporal ⟨hstack, hcells, hflag⟩
    have h2p := TypeChecker.pop_type_no_temporal h1p.2
    exact TypeChecker.push_no_temporal h2p.2
      (TemporalType.join_ne_temporal h2p.1 h1p.1)
  | Gt =>
    have h1p := TypeChecker.pop_type_no_temporal ⟨hstack, hcells, hflag⟩
    have h2p := TypeChecker.pop_type_no_temporal h1p.2
    exact TypeChecker.push_no_temporal h2p.2
      (TemporalType.join_ne_temporal h2p.1 h1p.1)
  | Lte =>
    have h1p := TypeChecker.pop_type_no_temporal ⟨hstack, hcells, hflag⟩
    have h2p := TypeChecker.pop_type_no_temporal h1p.2
    exact TypeChecker.push_no_temporal h2p.2
      (TemporalType.join_ne_temporal h2p.1 h1p.1)
  | Gte =>
    have h1p := TypeChecker.pop_type_no_temporal ⟨hstack, hcells, hflag⟩
    have h2p := TypeChecker.pop_type_no_temporal h1p.2
    exact TypeChecker.push_no_temporal h2p.2
      (TemporalType.join_ne_temporal h2p.1 h1p.1)

mutual

/-- `check_stmt` preserves the no-`Temporal` invariant on the
temporally-inert fragment. -/
theorem check_stmt_no_temporal :
    ∀ (s : Stmt) (c : TypeChecker), temporal_free_stmt s = true →
      c.NoTemporal → (TypeChecker.check_stmt s c).NoTemporal
  | .Push v, c, hok, hc => by
    have hpure : v.prov.is_pure = true := hok
    simp only [TypeChecker.check_stmt, hpure, if_true]
    exact TypeChecker.push_no_temporal hc (by simp)
  | .Op op, c, hok, hc => by
    have h' : (!(op == OpCode.Oracle || op == OpCode.PresentRead ||
        op == OpCode.Index)) = true := hok
    simp only [Bool.not_eq_eq_eq_not, Bool.not_true, Bool.or_eq_false_iff,
      beq_eq_false_iff_ne] at h'
    exact TypeChecker.check_op_no_temporal op c hc h'.1.1 h'.1.2 h'.2
  | .If t (some es), c, hok, hc => by
    have h' := Bool.and_eq_true_iff.mp
      (hok : (temporal_free_stmts t && temporal_free_stmts es) = true)
    have hpop := TypeChecker.pop_type_no_temporal hc
    simp only [TypeChecker.check_stmt]
    rcases hpair : c.pop_type with ⟨ct, c₀⟩
    rw [hpair] at hpop
    have hct : ct ≠ TemporalType.Temporal := hpop.1
    have hc₀ := hpop.2
    rw [if_neg hct]
    have h₂ := check_statements_no_temporal t c₀ h'.1 hc₀
    have hmid : TypeChecker.NoTemporal
        { TypeChecker.check_statements t c₀ with stack := c₀.stack } :=
      ⟨hc₀.1, h₂.2.1, h₂.2.2⟩
    have h₄ := check_statements_no_temporal es _ h'.2 hmid
    exact ⟨TypeChecker.merge_stacks_no_temporal h₂.1 h₄.1, h₄.2.1, hc₀.2.2⟩
  | .If t Option.none, c, hok, hc => by
    have h' : temporal_free_stmts t = true := by
      have h2 : (temporal_free_stmts t && true) = true := hok
      rwa [Bool.and_true] at h2
    have hpop := TypeChecker.pop_type_no_temporal hc
    simp only [TypeChecker.check_stmt]
    rcases hpair : c.pop_type with ⟨ct, c₀⟩
    rw [hpair] at hpop
    have hct : ct ≠ TemporalType.Temporal := hpop.1
    have hc₀ := hpop.2
    rw [if_neg hct]
    have h₂ := check_statements_no_temporal t c₀ h' hc₀
    exact ⟨TypeChecker.merge_stacks_no_temporal h₂.1 hc₀.1, h₂.2.1, hc₀.2.2⟩
  | .While cond body, c, hok, hc => by
    have h' := Bool.and_eq_true_iff.mp
      (hok : (temporal_free_stmts cond && temporal_free_stmts body) = true)
    simp only [TypeChecker.check_stmt]
    have h₁ := check_statements_no_temporal cond c h'.1 hc
    have hpop := TypeChecker.pop_type_no_temporal h₁
    rcases hpair : (TypeChecker.check_statements cond c).pop_type with ⟨ct, c₂⟩
    rw [hpair] at hpop
    have hct : ct ≠ TemporalType.Temporal := hpop.1
    rw [if_neg hct]
    have h₃ := check_statements_no_temporal body c₂ h'.2 hpop.2
    exact ⟨hc.1, h₃.2.1, h₃.2.2⟩
  | .Block stmts, c, hok, hc =>
    check_statements_no_temporal stmts c hok hc
  | .Call name, c, _, hc => by
    simp only [TypeChecker.check_stmt]
    exact TypeChecker.push_no_temporal hc (by simp)
  | .Match cases (some db), c, hok, hc => by
    have h' := Bool.and_eq_true_iff.mp
      (hok : (temporal_free_cases cases && temporal_free_stmts db) = true)
    simp only [TypeChecker.check_stmt]
    have hpop := (TypeChecker.pop_type_no_temporal hc).2
    have h₂ := check_cases_no_temporal cases _ h'.1 hpop
    exact check_body_no_temporal db _ h'.2 h₂
  | .Match cases Option.none, c, hok, hc => by
    have h' : temporal_free_cases cases = true := by
      have h2 : (temporal_free_cases cases && true) = true := hok
      rwa [Bool.and_true] at h2
    simp only [TypeChecker.check_stmt]
    have hpop := (TypeChecker.pop_type_no_temporal hc).2
    exact check_cases_no_temporal cases _ h' hpop

/-- `check_statements` preserves the no-`Temporal` invariant on the
temporally-inert fragment. -/
theorem check_statements_no_temporal :
    ∀ (l : List Stmt) (c : TypeChecker), temporal_free_stmts l = true →
      c.NoTemporal → (TypeChecker.check_statements l c).NoTemporal
  | [], _, _, hc => hc
  | s :: rest, c, hok, hc => by
    have h' := Bool.and_eq_true_iff.mp
      (hok : (temporal_free_stmt s && temporal_free_stmts rest) = true)
    have h₁ := check_stmt_no_temporal s c h'.1 hc
    exact check_statements_no_temporal rest _ h'.2 ⟨h₁.1, h₁.2.1, h₁.2.2⟩

/-- The match-case loop preserves the no-`Temporal` invariant. -/
theorem check_cases_no_temporal :
    ∀ (cs : List (Nat × List Stmt)) (c : TypeChecker),
      temporal_free_cases cs = true → c.NoTemporal →
      (TypeChecker.check_cases cs c).NoTemporal
  | [], _, _, hc => hc
  | (_, b) :: rest, c, hok, hc => by
    have h' := Bool.and_eq_true_iff.mp
      (hok : (temporal_free_stmts b && temporal_free_cases rest) = true)
    exact check_cases_no_temporal rest _ h'.2 (check_body_no_temporal b c h'.1 hc)

/-- The direct statement loop over a match-case body preserves the
no-`Temporal` invariant. -/
theorem check_body_no_temporal :
    ∀ (l : List Stmt) (c : TypeChecker), temporal_free_stmts l = true →
      c.NoTemporal → (TypeChecker.check_body l c).NoTemporal
  | [], _, _, hc => hc
  | s :: rest, c, hok, hc => by
    have h' := Bool.and_eq_true_iff.mp
      (hok : (temporal_free_stmt s && temporal_free_stmts rest) = true)
    exact check_body_no_temporal rest _ h'.2 (check_stmt_no_temporal s c h'.1 hc)

end

/-- C9 (amended): for programs in the temporally-inert fragment — no
`Oracle`, no `PresentRead`, no `Index`, and provenance-free constants — the
checker never holds a `Temporal` stack slot or cell type at any point of the
analysis, and in particular `type_check` reports none in
`final_stack_types` or `cell_types`. -/
theorem C9_pure_fragment_no_temporal :
    (∀ (l : List Stmt) (c : TypeChecker), temporal_free_stmts l = true →
      c.NoTemporal → (TypeChecker.check_statements l c).NoTemporal) ∧
    (∀ p : Program, temporal_free_stmts p.body = true →
      (∀ t ∈ (type_check p).final_stack_types, t ≠ TemporalType.Temporal) ∧
      (∀ a, (type_check p).cell_types a ≠ some TemporalType.Temporal)) := by
  have hnew : TypeChecker.new.NoTemporal := by
    refine ⟨?_, ?_, rfl⟩
    · intro t ht
      simp [TypeChecker.new] at ht
    · intro a
      simp [TypeChecker.new]
  refine ⟨check_statements_no_temporal, fun p hp => ?_⟩
  have h := check_statements_no_temporal p.body TypeChecker.new hp hnew
  exact ⟨h.1, h.2.1⟩

/-- Witness for the amended C9 at the pure-arithmetic program. -/
theorem C9_pure_fragment_no_temporal_witness :
    temporal_free_stmts pure_arith_program.body = true ∧
    (∀ t ∈ (type_check pure_arith_program).final_stack_types,
      t ≠ TemporalType.Temporal) ∧
    (∀ a, (type_check pure_arith_program).cell_types a ≠
      some TemporalType.Temporal) :=
  ⟨rfl, C9_pure_fragment_no_temporal.2 pure_arith_program rfl⟩

/-! ### C7: the Pack/Unpack round trip -/

/-- What the `Pack` loop does when the stack holds the `ws.length` values
`ws` (stack order, head popped first) above `rest` and the written window
fits in the address space: it pops `ws`, writes `ws` downward from
`base + ws.length - 1`, and leaves every cell outside the window
untouched. -/
theorem packLoop_spec :
    ∀ (ws : List Value) (st : VmState) (ex : ExecSt) (base : Address)
      (rest : List Value),
      st.stack = ws ++ rest → base.val + ws.length ≤ MEMORY_SIZE →
      ∃ m' : Memory,
        packLoop base ws.length st ex =
          ⟨{ st with stack := rest, present := m' }, ex, .ok⟩ ∧
        (∀ j, (hj : j < ws.length) →
          m'.cells (toAddr (base.val + (ws.length - 1 - j))) = ws.get ⟨j, hj⟩) ∧
        (∀ a : Address, a.val < base.val ∨ base.val + ws.length ≤ a.val →
          m'.cells a = st.present.cells a) := by
  intro ws
  induction ws with
  | nil =>
    intro st ex base rest hstack _
    have hstack' : rest = st.stack := by simpa using hstack.symm
    subst hstack'
    exact ⟨st.present, rfl, fun j hj => absurd hj (by simp), fun a _ => rfl⟩
  | cons w tail ih =>
    intro st ex base rest hstack hb
    have hb' : base.val + (tail.length + 1) ≤ MEMORY_SIZE := by
      simpa using hb
    have hklt : tail.length % MEMORY_SIZE = tail.length :=
      Nat.mod_eq_of_lt (by omega)
    have hsum : base.val + tail.length % MEMORY_SIZE < MEMORY_SIZE := by
      omega
    have hstep : packLoop base (w :: tail).length st ex =
        packLoop base tail.length
          { st with
            stack := tail ++ rest
            present := st.present.write ⟨base.val + tail.length % MEMORY_SIZE,
              hsum⟩ w } ex := by
      show packLoop base (tail.length + 1) st ex = _
      simp only [packLoop, hstack, addrAdd]
      rw [dif_pos hsum]
      rfl
    obtain ⟨m', hpack, hwrites, huntouched⟩ := ih
      { st with
        stack := tail ++ rest
        present := st.present.write ⟨base.val + tail.length % MEMORY_SIZE,
          hsum⟩ w } ex base rest rfl (by omega)
    refine ⟨m', ?_, ?_, ?_⟩
    · rw [hstep, hpack]
    · intro j hj
      match j, hj with
      | 0, _ =>
        have haddr : (w :: tail).length - 1 - 0 = tail.length := by
          simp
        rw [haddr]
        have htop : toAddr (base.val + tail.length) =
            ⟨base.val + tail.length % MEMORY_SIZE, hsum⟩ := by
          apply Fin.ext
          simp only [toAddr, hklt]
          exact Nat.mod_eq_of_lt (hklt ▸ hsum)
        rw [show m'.cells (toAddr (base.val + tail.length)) =
            (st.present.write ⟨base.val + tail.length % MEMORY_SIZE, hsum⟩
              w).cells (toAddr (base.val + tail.length)) from
          huntouched _ (Or.inr (by
            simp only [toAddr, hklt, Nat.mod_eq_of_lt (hklt ▸ hsum)]
            omega))]
        rw [htop]
        simp [Memory.write, Function.update_same]
      | j' + 1, hj =>
        have harr : (w :: tail).length - 1 - (j' + 1) =
            tail.length - 1 - j' := by
          simp only [List.length_cons]
          omega
        rw [harr]
        have hj' : j' < tail.length := by
          simp only [List.length_cons] at hj; omega
        rw [hwrites j' hj']
        rfl
    · intro a ha
      have ha' : a.val < base.val ∨ base.val + tail.length ≤ a.val := by
        simp only [List.length_cons] at ha; omega
      rw [huntouched a ha']
      have hane : a ≠ ⟨base.val + tail.length % MEMORY_SIZE, hsum⟩ := by
        intro hcontra
        rw [hcontra] at ha
        simp only [List.length_cons, hklt] at ha
        omega
      simp [Memory.write, Function.update_noteq hane]

/-- What the `Unpack` loop does when the read window fits in the address
space: it pushes the cells `base + i, …, base + i + count - 1` in order, so
the last one ends on top. -/
theorem unpackLoop_spec :
    ∀ (count i : Nat) (st : VmState) (ex : ExecSt) (base : Address),
      base.val + i + count ≤ MEMORY_SIZE →
      unpackLoop base i count st ex =
        ⟨{ st with stack := ((List.range' i count).map fun j =>
            st.present.cells (toAddr (base.val + j))).reverse ++ st.stack },
          ex, .ok⟩ := by
  intro count
  induction count with
  | zero =>
    intro i st ex base _
    exact rfl
  | succ count ih =>
    intro i st ex base hb
    have hilt : i % MEMORY_SIZE = i := Nat.mod_eq_of_lt (by omega)
    have hsum : base.val + i % MEMORY_SIZE < MEMORY_SIZE := by
      rw [hilt]; omega
    have hstep : unpackLoop base i (count + 1) st ex =
        unpackLoop base (i + 1) count
          { st with stack :=
            st.present.cells ⟨base.val + i % MEMORY_SIZE, hsum⟩ :: st.stack }
          ex := by
      simp only [unpackLoop, addrAdd]
      rw [dif_pos hsum]
      rfl
    rw [hstep, ih (i + 1) _ ex base (by omega)]
    have haddr : (⟨base.val + i % MEMORY_SIZE, hsum⟩ : Address) =
        toAddr (base.val + i) := by
      apply Fin.ext
      simp only [toAddr, hilt]
      exact (Nat.mod_eq_of_lt (hilt ▸ hsum)).symm
    rw [haddr]
    show StepRes.mk _ _ _ = StepRes.mk _ _ _
    congr 1
    show ({ st with stack := _ } : VmState) = { st with stack := _ }
    congr 1
    rw [List.range'_succ, List.map_cons, List.reverse_cons, List.append_assoc]
    rfl

/-- Reading the window `base, …, base + n - 1` upward and reversing restores
the packed list when cell `base + (n - 1 - j)` holds element `j`. -/
theorem window_read_reverse (m : Memory) (base : Nat) (ws : List Value)
    (h : ∀ j, (hj : j < ws.length) →
      m.cells (toAddr (base + (ws.length - 1 - j))) = ws.get ⟨j, hj⟩) :
    ((List.range' 0 ws.length).map fun j =>
      m.cells (toAddr (base + j))).reverse = ws := by
  apply List.ext_get
  · simp
  · intro k h₁ h₂
    have hk : k < ws.length := h₂
    have hrev : (((List.range' 0 ws.length).map fun j =>
        m.cells (toAddr (base + j))).reverse).get ⟨k, h₁⟩ =
        m.cells (toAddr (base + (ws.length - 1 - k))) := by
      simp [List.getElem_reverse, List.getElem_map, List.getElem_range']
    rw [hrev, h k hk]

/-- C7: Pack/Unpack round trip.  If the stack holds the operands `n`, `base`
above the `n ≥ 1` values `ws` (top of stack first, so `ws.head` is vₙ) and
the window of effective addresses `base, …, base + n - 1` fits in the
address space, then `Pack` pops the operands and the values and succeeds,
and a subsequent `Unpack` with the same two operands pushed back restores
exactly the original value sequence `ws` above `rest`, in the original
order. -/
theorem C7_pack_unpack_roundtrip
    (cfg : ExecutorConfig) (stdin : Nat → Nat) (ws : List Value)
    (st : VmState) (ex : ExecSt) (nv bv : Value) (rest : List Value)
    (_hlen : 1 ≤ ws.length)
    (hstack : st.stack = nv :: bv :: (ws ++ rest))
    (hn : nv.val = ws.length)
    (hfit : (toAddr bv.val).val + ws.length ≤ MEMORY_SIZE) :
    ∃ st' : VmState,
      execute_op cfg stdin .Pack st ex = ⟨st', ex, .ok⟩ ∧
      st'.stack = rest ∧
      execute_op cfg stdin .Unpack
        { st' with stack := nv :: bv :: st'.stack } ex =
        ⟨{ st' with stack := ws ++ rest }, ex, .ok⟩ := by
  obtain ⟨stk, pres, anam, outp, stat, instr⟩ := st
  have hstk : stk = nv :: bv :: (ws ++ rest) := hstack
  subst hstk
  obtain ⟨m', hpack, hwrites, -⟩ :=
    packLoop_spec ws ⟨ws ++ rest, pres, anam, outp, stat, instr⟩ ex
      (toAddr bv.val) rest rfl hfit
  refine ⟨⟨rest, m', anam, outp, stat, instr⟩, ?_, rfl, ?_⟩
  · show packLoop (toAddr bv.val) nv.val
        ⟨ws ++ rest, pres, anam, outp, stat, instr⟩ ex = _
    rw [hn]
    exact hpack
  · show unpackLoop (toAddr bv.val) 0 nv.val
        ⟨rest, m', anam, outp, stat, instr⟩ ex = _
    rw [hn]
    have hu : unpackLoop (toAddr bv.val) 0 ws.length
        ⟨rest, m', anam, outp, stat, instr⟩ ex =
        ⟨⟨((List.range' 0 ws.length).map fun j =>
            m'.cells (toAddr ((toAddr bv.val).val + j))).reverse ++ rest,
          m', anam, outp, stat, instr⟩, ex, .ok⟩ :=
      unpackLoop_spec ws.length 0 _ ex (toAddr bv.val) (by omega)
    rw [window_read_reverse m' (toAddr bv.val).val ws hwrites] at hu
    exact hu

/-- Stack fixture for the Pack/Unpack round-trip witness: operands `n = 3`
and `base = 10` above the values `33, 22, 11` (`11` deepest, `33` the
topmost packed value). -/
def pack_witness_state : VmState :=
  ⟨[Value.new 3, Value.new 10, Value.new 33, Value.new 22, Value.new 11],
    Memory.new, Memory.new, [], .Running, 0⟩

/-- Witness for C7: with `n = 3`, `base = 10` and the values `33, 22, 11`
on the stack, `Pack` then `Unpack` restores the stack `33, 22, 11`. -/
theorem C7_pack_unpack_roundtrip_witness :
    (1 ≤ ([Value.new 33, Value.new 22, Value.new 11] : List Value).length ∧
      pack_witness_state.stack = Value.new 3 :: Value.new 10 ::
        ([Value.new 33, Value.new 22, Value.new 11] ++ []) ∧
      (Value.new 3).val =
        ([Value.new 33, Value.new 22, Value.new 11] : List Value).length ∧
      (toAddr (Value.new 10).val).val +
        ([Value.new 33, Value.new 22, Value.new 11] : List Value).length ≤
        MEMORY_SIZE) ∧
    ∃ st' : VmState,
      execute_op default_run_ecfg stdin_zero .Pack pack_witness_state ex_init =
        ⟨st', ex_init, .ok⟩ ∧
      st'.stack = [] ∧
      execute_op default_run_ecfg stdin_zero .Unpack
        { st' with stack := Value.new 3 :: Value.new 10 :: st'.stack } ex_init =
        ⟨{ st' with stack := [Value.new 33, Value.new 22, Value.new 11] ++ [] },
          ex_init, .ok⟩ :=
  ⟨⟨by decide, rfl, rfl, by decide⟩,
    C7_pack_unpack_roundtrip default_run_ecfg stdin_zero
      [Value.new 33, Value.new 22, Value.new 11] pack_witness_state ex_init
      (Value.new 3) (Value.new 10) [] (by decide) rfl rfl (by decide)⟩

/-! ### C6: determinism of the driver without interactive input

The interactive `stdin` fallback of the `Input` opcode is the only place
the embedding's `stdin` stream is consulted, and every such read advances
`stdin_pos`.  The development proves, level by level, that `stdin_pos` is
monotone and that a run whose final `stdin_pos` equals its initial one is
independent of the `stdin` stream. -/

/-- The `Pack` loop threads the executor state through unchanged. -/
theorem packLoop_ex :
    ∀ (k : Nat) (base : Address) (st : VmState) (ex : ExecSt),
      (packLoop base k st ex).ex = ex
  | 0, _, _, _ => rfl
  | k + 1, base, st, ex => by
    simp only [packLoop]
    split
    · rfl
    · split
      · exact packLoop_ex k base _ ex
      · rfl

/-- The `Unpack` loop threads the executor state through unchanged. -/
theorem unpackLoop_ex :
    ∀ (k i : Nat) (base : Address) (st : VmState) (ex : ExecSt),
      (unpackLoop base i k st ex).ex = ex
  | 0, _, _, _, _ => rfl
  | k + 1, i, base, st, ex => by
    simp only [unpackLoop]
    split
    · exact unpackLoop_ex k (i + 1) base _ ex
    · rfl

/-- A single opcode never decreases `stdin_pos` (only the interactive
branch of `Input` advances it). -/
theorem execute_op_stdin_pos_mono (cfg : ExecutorConfig) (stdin : Nat → Nat)
    (op : OpCode) (st : VmState) (ex : ExecSt) :
    ex.stdin_pos ≤ (execute_op cfg stdin op st ex).ex.stdin_pos := by
  cases op <;> simp only [execute_op] <;> (repeat' split) <;>
    first
      | exact Nat.le.refl
      | exact Nat.le_succ _
      | (rw [packLoop_ex])
      | (rw [unpackLoop_ex])

/-- A single opcode that does not advance `stdin_pos` never consulted the
interactive stream: its result is the same for every `stdin`. -/
theorem execute_op_stdin_indep (cfg : ExecutorConfig) (stdin₁ stdin₂ : Nat → Nat)
    (op : OpCode) (st : VmState) (ex : ExecSt)
    (h : (execute_op cfg stdin₁ op st ex).ex.stdin_pos = ex.stdin_pos) :
    execute_op cfg stdin₁ op st ex = execute_op cfg stdin₂ op st ex := by
  cases op <;> try rfl
  case Input =>
    by_cases hc : ex.input_cursor < cfg.input.length
    · simp only [execute_op]
      rw [if_pos hc, if_pos hc]
    · exfalso
      simp only [execute_op] at h
      rw [if_neg hc] at h
      exact Nat.succ_ne_self _ h

/-- The statement interpreter never decreases `stdin_pos`. -/
theorem exec_stdin_pos_mono (cfg : ExecutorConfig) (stdin : Nat → Nat) :
    ∀ (fuel : Nat) (task : ExecTask) (st : VmState) (ex : ExecSt),
      ex.stdin_pos ≤ (exec cfg stdin fuel task st ex).ex.stdin_pos := by
  intro fuel
  induction fuel with
  | zero => intro task st ex; exact Nat.le.refl
  | succ fuel ih =>
    intro task st ex
    cases task with
    | block stmts =>
      cases stmts with
      | nil => exact Nat.le.refl
      | cons s rest =>
        simp only [exec]
        split
        · exact Nat.le.refl
        · split
          · exact Nat.le.refl
          · split
            · rename_i st' ex' heq
              have h₁ := ih (.stmt s) st ex
              rw [heq] at h₁
              exact Nat.le_trans h₁ (ih (.block rest) st' ex')
            · exact ih (.stmt s) st ex
    | stmt s =>
      cases s with
      | Op op => exact execute_op_stdin_pos_mono cfg stdin op _ ex
      | Push v => exact Nat.le.refl
      | Block stmts => exact ih (.block stmts) _ ex
      | If then_branch else_branch =>
        simp only [exec]
        split
        · exact Nat.le.refl
        · split
          · exact ih (.block then_branch) _ ex
          · split
            · exact ih (.block _) _ ex
            · exact Nat.le.refl
      | While cond body => exact ih (.whileLoop cond body) _ ex
      | Call name => exact Nat.le.refl
      | Match cases default =>
        simp only [exec]
        split
        · exact Nat.le.refl
        · exact ih (.matchCases _ cases default) _ ex
    | whileLoop cond body =>
      simp only [exec]
      split
      · exact Nat.le.refl
      · split
        · rename_i st₁ ex₁ heq
          have h₁ := ih (.block cond) st ex
          rw [heq] at h₁
          split
          · exact h₁
          · rename_i v rest hstk
            split
            · exact h₁
            · split
              · rename_i st₃ ex₃ heq₂
                have h₂ := ih (.block body) { st₁ with stack := rest } ex₁
                rw [heq₂] at h₂
                split
                · exact Nat.le_trans h₁ h₂
                · exact Nat.le_trans (Nat.le_trans h₁ h₂)
                    (ih (.whileLoop cond body) st₃ ex₃)
              · exact Nat.le_trans h₁ (ih (.block body) _ ex₁)
        · exact ih (.block cond) st ex
    | matchCases v cases default =>
      cases cases with
      | nil =>
        cases default with
        | some default_body => exact ih (.stmtSeq default_body) st ex
        | none => exact Nat.le.refl
      | cons c restCases =>
        simp only [exec]
        split
        · exact ih (.stmtSeq c.2) st ex
        · exact ih (.matchCases v restCases default) st ex
    | stmtSeq stmts =>
      cases stmts with
      | nil => exact Nat.le.refl
      | cons s rest =>
        simp only [exec]
        split
        · rename_i st' ex' heq
          have h₁ := ih (.stmt s) st ex
          rw [heq] at h₁
          exact Nat.le_trans h₁ (ih (.stmtSeq rest) st' ex')
        · exact ih (.stmt s) st ex

set_option maxHeartbeats 1600000 in
/-- The statement interpreter is independent of the interactive stream on
any run that does not advance `stdin_pos`. -/
theorem exec_stdin_indep (cfg : ExecutorConfig) (stdin₁ stdin₂ : Nat → Nat) :
    ∀ (fuel : Nat) (task : ExecTask) (st : VmState) (ex : ExecSt),
      (exec cfg stdin₁ fuel task st ex).ex.stdin_pos = ex.stdin_pos →
      exec cfg stdin₁ fuel task st ex = exec cfg stdin₂ fuel task st ex := by
  intro fuel
  induction fuel with
  | zero => intro task st ex; exact fun _ => rfl
  | succ fuel ih =>
    intro task st ex
    cases task with
    | block stmts =>
      cases stmts with
      | nil => exact fun _ => rfl
      | cons s rest =>
        simp only [exec]
        split
        · exact fun _ => rfl
        · split
          · exact fun _ => rfl
          · split
            · rename_i st' ex' heq
              intro h
              have hm₁ := exec_stdin_pos_mono cfg stdin₁ fuel (.stmt s) st ex
              rw [heq] at hm₁
              have hm₂ := exec_stdin_pos_mono cfg stdin₁ fuel (.block rest) st' ex'
              have hex' : ex'.stdin_pos = ex.stdin_pos :=
                Nat.le_antisymm (h ▸ hm₂) hm₁
              have hstmt : (exec cfg stdin₁ fuel (.stmt s) st ex).ex.stdin_pos =
                  ex.stdin_pos := by
                rw [heq]; exact hex'
              have IH₁ := ih (.stmt s) st ex hstmt
              have hrec : (exec cfg stdin₁ fuel (.block rest) st' ex').ex.stdin_pos =
                  ex'.stdin_pos := by
                rw [h, hex']
              have IH₂ := ih (.block rest) st' ex' hrec
              rw [← IH₁, heq]
              exact IH₂
            · rename_i hno
              intro h
              have IH₁ := ih (.stmt s) st ex h
              rw [← IH₁]
              split
              · rename_i st' ex' heq'
                exact (hno st' ex' heq').elim
              · rfl
    | stmt s =>
      cases s with
      | Op op =>
        intro h
        exact execute_op_stdin_indep cfg stdin₁ stdin₂ op
          { st with instructions_executed := st.instructions_executed + 1 } ex h
      | Push v => exact fun _ => rfl
      | Block stmts => intro h; exact ih (.block stmts) _ ex h
      | If then_branch else_branch =>
        simp only [exec]
        split
        · exact fun _ => rfl
        · split
          · intro h; exact ih (.block then_branch) _ ex h
          · split
            · intro h; exact ih (.block _) _ ex h
            · exact fun _ => rfl
      | While cond body => intro h; exact ih (.whileLoop cond body) _ ex h
      | Call name => exact fun _ => rfl
      | Match cases default =>
        simp only [exec]
        split
        · exact fun _ => rfl
        · intro h; exact ih (.matchCases _ cases default) _ ex h
    | whileLoop cond body =>
      simp only [exec]
      split
      · exact fun _ => rfl
      · split
        · rename_i st₁ ex₁ heq
          split
          · rename_i hstk
            intro h
            have hcond : (exec cfg stdin₁ fuel (.block cond) st ex).ex.stdin_pos =
                ex.stdin_pos := by
              rw [heq]; exact h
            have IH₁ := ih (.block cond) st ex hcond
            have E₁ : exec cfg stdin₂ fuel (.block cond) st ex = ⟨st₁, ex₁, .ok⟩ :=
              IH₁.symm.trans heq
            simp only [E₁, hstk]
          · rename_i result rest hstk
            split
            · rename_i hcnd
              intro h
              have hcond : (exec cfg stdin₁ fuel (.block cond) st ex).ex.stdin_pos =
                  ex.stdin_pos := by
                rw [heq]; exact h
              have IH₁ := ih (.block cond) st ex hcond
              have E₁ : exec cfg stdin₂ fuel (.block cond) st ex = ⟨st₁, ex₁, .ok⟩ :=
                IH₁.symm.trans heq
              simp only [E₁, hstk]
              rw [if_pos hcnd]
            · rename_i hcnd
              split
              · rename_i st₃ ex₃ heq₂
                split
                · rename_i hgas
                  intro h
                  have hm₁ := exec_stdin_pos_mono cfg stdin₁ fuel (.block cond) st ex
                  rw [heq] at hm₁
                  have hm₂ := exec_stdin_pos_mono cfg stdin₁ fuel (.block body)
                    { st₁ with stack := rest } ex₁
                  rw [heq₂] at hm₂
                  have h' : ex₃.stdin_pos = ex.stdin_pos := h
                  have hm₁' : ex.stdin_pos ≤ ex₁.stdin_pos := hm₁
                  have hm₂' : ex₁.stdin_pos ≤ ex₃.stdin_pos := hm₂
                  have hex₁ : ex₁.stdin_pos = ex.stdin_pos := by omega
                  have hcond : (exec cfg stdin₁ fuel (.block cond) st ex).ex.stdin_pos =
                      ex.stdin_pos := by
                    rw [heq]; exact hex₁
                  have IH₁ := ih (.block cond) st ex hcond
                  have E₁ : exec cfg stdin₂ fuel (.block cond) st ex =
                      ⟨st₁, ex₁, .ok⟩ := IH₁.symm.trans heq
                  have hbody : (exec cfg stdin₁ fuel (.block body)
                      { st₁ with stack := rest } ex₁).ex.stdin_pos =
                      ex₁.stdin_pos := by
                    rw [heq₂]
                    exact h'.trans hex₁.symm
                  have IH₂ := ih (.block body) { st₁ with stack := rest } ex₁ hbody
                  have E₂ : exec cfg stdin₂ fuel (.block body)
                      { st₁ with stack := rest } ex₁ = ⟨st₃, ex₃, .ok⟩ :=
                    IH₂.symm.trans heq₂
                  simp only [E₁, hstk]
                  rw [if_neg hcnd]
                  simp only [E₂]
                  rw [if_pos hgas]
                · rename_i hgas
                  intro h
                  have hm₁ := exec_stdin_pos_mono cfg stdin₁ fuel (.block cond) st ex
                  rw [heq] at hm₁
                  have hm₂ := exec_stdin_pos_mono cfg stdin₁ fuel (.block body)
                    { st₁ with stack := rest } ex₁
                  rw [heq₂] at hm₂
                  have hm₃ := exec_stdin_pos_mono cfg stdin₁ fuel
                    (.whileLoop cond body) st₃ ex₃
                  have h' : (exec cfg stdin₁ fuel (.whileLoop cond body)
                      st₃ ex₃).ex.stdin_pos = ex.stdin_pos := h
                  have hm₁' : ex.stdin_pos ≤ ex₁.stdin_pos := hm₁
                  have hm₂' : ex₁.stdin_pos ≤ ex₃.stdin_pos := hm₂
                  have hex₁ : ex₁.stdin_pos = ex.stdin_pos := by omega
                  have hex₃ : ex₃.stdin_pos = ex.stdin_pos := by omega
                  have hcond : (exec cfg stdin₁ fuel (.block cond) st ex).ex.stdin_pos =
                      ex.stdin_pos := by
                    rw [heq]; exact hex₁
                  have IH₁ := ih (.block cond) st ex hcond
                  have E₁ : exec cfg stdin₂ fuel (.block cond) st ex =
                      ⟨st₁, ex₁, .ok⟩ := IH₁.symm.trans heq
                  have hbody : (exec cfg stdin₁ fuel (.block body)
                      { st₁ with stack := rest } ex₁).ex.stdin_pos =
                      ex₁.stdin_pos := by
                    rw [heq₂]
                    exact hex₃.trans hex₁.symm
                  have IH₂ := ih (.block body) { st₁ with stack := rest } ex₁ hbody
                  have E₂ : exec cfg stdin₂ fuel (.block body)
                      { st₁ with stack := rest } ex₁ = ⟨st₃, ex₃, .ok⟩ :=
                    IH₂.symm.trans heq₂
                  have hrec : (exec cfg stdin₁ fuel (.whileLoop cond body)
                      st₃ ex₃).ex.stdin_pos = ex₃.stdin_pos := by
                    rw [h']; exact hex₃.symm
                  have IH₃ := ih (.whileLoop cond body) st₃ ex₃ hrec
                  simp only [E₁, hstk]
                  rw [if_neg hcnd]
                  simp only [E₂]
                  rw [if_neg hgas]
                  exact IH₃
              · rename_i hno
                intro h
                have hm₁ := exec_stdin_pos_mono cfg stdin₁ fuel (.block cond) st ex
                rw [heq] at hm₁
                have hm₂ := exec_stdin_pos_mono cfg stdin₁ fuel (.block body)
                  { st₁ with stack := rest } ex₁
                have h' : (exec cfg stdin₁ fuel (.block body)
                    { st₁ with stack := rest } ex₁).ex.stdin_pos = ex.stdin_pos := h
                have hm₁' : ex.stdin_pos ≤ ex₁.stdin_pos := hm₁
                have hex₁ : ex₁.stdin_pos = ex.stdin_pos := by omega
                have hcond : (exec cfg stdin₁ fuel (.block cond) st ex).ex.stdin_pos =
                    ex.stdin_pos := by
                  rw [heq]; exact hex₁
                have IH₁ := ih (.block cond) st ex hcond
                have E₁ : exec cfg stdin₂ fuel (.block cond) st ex =
                    ⟨st₁, ex₁, .ok⟩ := IH₁.symm.trans heq
                have hbody : (exec cfg stdin₁ fuel (.block body)
                    { st₁ with stack := rest } ex₁).ex.stdin_pos =
                    ex₁.stdin_pos := by
                  rw [h']; exact hex₁.symm
                have IH₂ := ih (.block body) { st₁ with stack := rest } ex₁ hbody
                simp only [E₁, hstk]
                rw [if_neg hcnd, ← IH₂]
                split
                · rename_i st₃ ex₃ heq'
                  exact (hno st₃ ex₃ heq').elim
                · rfl
        · rename_i hno
          intro h
          have IH₁ := ih (.block cond) st ex h
          rw [← IH₁]
          split
          · rename_i st₁ ex₁ heq'
            exact (hno st₁ ex₁ heq').elim
          · rfl
    | matchCases v cases default =>
      cases cases with
      | nil =>
        cases default with
        | some default_body => intro h; exact ih (.stmtSeq default_body) st ex h
        | none => exact fun _ => rfl
      | cons c restCases =>
        simp only [exec]
        split
        · intro h; exact ih (.stmtSeq c.2) st ex h
        · intro h; exact ih (.matchCases v restCases default) st ex h
    | stmtSeq stmts =>
      cases stmts with
      | nil => exact fun _ => rfl
      | cons s rest =>
        simp only [exec]
        split
        · rename_i st' ex' heq
          intro h
          have hm₁ := exec_stdin_pos_mono cfg stdin₁ fuel (.stmt s) st ex
          rw [heq] at hm₁
          have hm₂ := exec_stdin_pos_mono cfg stdin₁ fuel (.stmtSeq rest) st' ex'
          have hex' : ex'.stdin_pos = ex.stdin_pos :=
            Nat.le_antisymm (h ▸ hm₂) hm₁
          have hstmt : (exec cfg stdin₁ fuel (.stmt s) st ex).ex.stdin_pos =
              ex.stdin_pos := by
            rw [heq]; exact hex'
          have IH₁ := ih (.stmt s) st ex hstmt
          have hrec : (exec cfg stdin₁ fuel (.stmtSeq rest) st' ex').ex.stdin_pos =
              ex'.stdin_pos := by
            rw [h, hex']
          have IH₂ := ih (.stmtSeq rest) st' ex' hrec
          rw [← IH₁, heq]
          exact IH₂
        · rename_i hno
          intro h
          have IH₁ := ih (.stmt s) st ex h
          rw [← IH₁]
          split
          · rename_i st' ex' heq'
            exact (hno st' ex' heq').elim
          · rfl

/-- An epoch never decreases `stdin_pos`. -/
theorem run_epoch_stdin_pos_mono (ecfg : ExecutorConfig) (stdin : Nat → Nat)
    (fuel : Nat) (p : Program) (M : Memory) (ex : ExecSt) :
    ex.stdin_pos ≤ (run_epoch ecfg stdin fuel p M ex).2.stdin_pos := by
  simp only [run_epoch, execute_block]
  split <;>
    · rename_i heq
      have hm := exec_stdin_pos_mono ecfg stdin fuel (.block p.body)
        (VmState.new M) { ex with input_cursor := 0 }
      rw [heq] at hm
      exact hm

/-- An epoch that does not advance `stdin_pos` is independent of the
interactive stream. -/
theorem run_epoch_stdin_indep (ecfg : ExecutorConfig) (stdin₁ stdin₂ : Nat → Nat)
    (fuel : Nat) (p : Program) (M : Memory) (ex : ExecSt)
    (h : (run_epoch ecfg stdin₁ fuel p M ex).2.stdin_pos = ex.stdin_pos) :
    run_epoch ecfg stdin₁ fuel p M ex = run_epoch ecfg stdin₂ fuel p M ex := by
  simp only [run_epoch, execute_block] at h ⊢
  cases hr : exec ecfg stdin₁ fuel (.block p.body) (VmState.new M)
      { ex with input_cursor := 0 } with
  | mk st' ex' out =>
    rw [hr] at h
    have hex' : ex'.stdin_pos = ex.stdin_pos := by
      cases out <;> exact h
    have hb : (exec ecfg stdin₁ fuel (.block p.body) (VmState.new M)
        { ex with input_cursor := 0 }).ex.stdin_pos =
        ({ ex with input_cursor := 0 } : ExecSt).stdin_pos := by
      rw [hr]; exact hex'
    have IH := exec_stdin_indep ecfg stdin₁ stdin₂ fuel (.block p.body)
      (VmState.new M) { ex with input_cursor := 0 } hb
    rw [← IH, hr]

/-- The executor state carried by a `Collected` outcome. -/
def Collected.exs : Collected → ExecSt
  | .ok _ ex => ex
  | .panic ex => ex
  | .fuelout ex => ex

/-- The diagnosis re-run loop never decreases `stdin_pos`. -/
theorem collect_states_stdin_pos_mono (ecfg : ExecutorConfig) (stdin : Nat → Nat)
    (fuel : Nat) (p : Program) :
    ∀ (count : Nat) (M : Memory) (ex : ExecSt),
      ex.stdin_pos ≤ (collect_states ecfg stdin fuel p count M ex).exs.stdin_pos := by
  intro count
  induction count with
  | zero => intro M ex; exact Nat.le.refl
  | succ count ih =>
    intro M ex
    simp only [collect_states]
    split
    · rename_i r ex' heq
      have hm₁ := run_epoch_stdin_pos_mono ecfg stdin fuel p M ex
      rw [heq] at hm₁
      split
      · rename_i states ex'' heq₂
        have hm₂ := ih r.present ex'
        rw [heq₂] at hm₂
        exact Nat.le_trans hm₁ hm₂
      · rename_i hno
        exact Nat.le_trans hm₁ (ih r.present ex')
    · rename_i ex' heq
      have hm₁ := run_epoch_stdin_pos_mono ecfg stdin fuel p M ex
      rw [heq] at hm₁
      exact hm₁
    · rename_i ex' heq
      have hm₁ := run_epoch_stdin_pos_mono ecfg stdin fuel p M ex
      rw [heq] at hm₁
      exact hm₁

/-- The diagnosis re-run loop is independent of the interactive stream when
it does not advance `stdin_pos`. -/
theorem collect_states_stdin_indep (ecfg : ExecutorConfig) (stdin₁ stdin₂ : Nat → Nat)
    (fuel : Nat) (p : Program) :
    ∀ (count : Nat) (M : Memory) (ex : ExecSt),
      (collect_states ecfg stdin₁ fuel p count M ex).exs.stdin_pos = ex.stdin_pos →
      collect_states ecfg stdin₁ fuel p count M ex =
        collect_states ecfg stdin₂ fuel p count M ex := by
  intro count
  induction count with
  | zero => intro M ex; exact fun _ => rfl
  | succ count ih =>
    intro M ex
    simp only [collect_states]
    split
    · rename_i r ex' heq
      split
      · rename_i states ex'' heq₂
        intro h
        have h' : ex''.stdin_pos = ex.stdin_pos := h
        have hm₁ := run_epoch_stdin_pos_mono ecfg stdin₁ fuel p M ex
        rw [heq] at hm₁
        have hm₁' : ex.stdin_pos ≤ ex'.stdin_pos := hm₁
        have hm₂ := collect_states_stdin_pos_mono ecfg stdin₁ fuel p count
          r.present ex'
        rw [heq₂] at hm₂
        have hm₂' : ex'.stdin_pos ≤ ex''.stdin_pos := hm₂
        have hex' : ex'.stdin_pos = ex.stdin_pos := by omega
        have hepoch : (run_epoch ecfg stdin₁ fuel p M ex).2.stdin_pos =
            ex.stdin_pos := by
          rw [heq]; exact hex'
        have IH₁ := run_epoch_stdin_indep ecfg stdin₁ stdin₂ fuel p M ex hepoch
        have E₁ : run_epoch ecfg stdin₂ fuel p M ex = (.result r, ex') :=
          IH₁.symm.trans heq
        have hrec : (collect_states ecfg stdin₁ fuel p count
            r.present ex').exs.stdin_pos = ex'.stdin_pos := by
          rw [heq₂]; exact h'.trans hex'.symm
        have IH₂ := ih r.present ex' hrec
        have E₂ : collect_states ecfg stdin₂ fuel p count r.present ex' =
            .ok states ex'' := IH₂.symm.trans heq₂
        simp only [E₁, E₂]
      · rename_i hno
        intro h
        have hm₁ := run_epoch_stdin_pos_mono ecfg stdin₁ fuel p M ex
        rw [heq] at hm₁
        have hm₁' : ex.stdin_pos ≤ ex'.stdin_pos := hm₁
        have hm₂ := collect_states_stdin_pos_mono ecfg stdin₁ fuel p count
          r.present ex'
        have h' : (collect_states ecfg stdin₁ fuel p count
            r.present ex').exs.stdin_pos = ex.stdin_pos := h
        have hex' : ex'.stdin_pos = ex.stdin_pos := by omega
        have hepoch : (run_epoch ecfg stdin₁ fuel p M ex).2.stdin_pos =
            ex.stdin_pos := by
          rw [heq]; exact hex'
        have IH₁ := run_epoch_stdin_indep ecfg stdin₁ stdin₂ fuel p M ex hepoch
        have E₁ : run_epoch ecfg stdin₂ fuel p M ex = (.result r, ex') :=
          IH₁.symm.trans heq
        have hrec : (collect_states ecfg stdin₁ fuel p count
            r.present ex').exs.stdin_pos = ex'.stdin_pos := by
          rw [h']; exact hex'.symm
        have IH₂ := ih r.present ex' hrec
        simp only [E₁]
        rw [← IH₂]
        split
        · rename_i states ex'' heq'
          exact (hno states ex'' heq').elim
        · rfl
    · rename_i ex' heq
      intro h
      have h' : ex'.stdin_pos = ex.stdin_pos := h
      have hepoch : (run_epoch ecfg stdin₁ fuel p M ex).2.stdin_pos =
          ex.stdin_pos := by
        rw [heq]; exact h'
      have IH₁ := run_epoch_stdin_indep ecfg stdin₁ stdin₂ fuel p M ex hepoch
      have E₁ : run_epoch ecfg stdin₂ fuel p M ex = (.panic, ex') :=
        IH₁.symm.trans heq
      simp only [E₁]
    · rename_i ex' heq
      intro h
      have h' : ex'.stdin_pos = ex.stdin_pos := h
      have hepoch : (run_epoch ecfg stdin₁ fuel p M ex).2.stdin_pos =
          ex.stdin_pos := by
        rw [heq]; exact h'
      have IH₁ := run_epoch_stdin_indep ecfg stdin₁ stdin₂ fuel p M ex hepoch
      have E₁ : run_epoch ecfg stdin₂ fuel p M ex = (.fuelout, ex') :=
        IH₁.symm.trans heq
      simp only [E₁]

/-- The oscillation diagnosis never decreases `stdin_pos`. -/
theorem diagnose_oscillation_stdin_pos_mono (ecfg : ExecutorConfig)
    (stdin : Nat → Nat) (fuel : Nat) (p : Program) (A : Memory) (period : Nat)
    (ex : ExecSt) :
    ex.stdin_pos ≤ (diagnose_oscillation ecfg stdin fuel p A period ex).2.stdin_pos := by
  simp only [diagnose_oscillation]
  split <;>
    · rename_i heq
      have hm := collect_states_stdin_pos_mono ecfg stdin fuel p (period + 1) A ex
      rw [heq] at hm
      exact hm

/-- The oscillation diagnosis is independent of the interactive stream when
it does not advance `stdin_pos`. -/
theorem diagnose_oscillation_stdin_indep (ecfg : ExecutorConfig)
    (stdin₁ stdin₂ : Nat → Nat) (fuel : Nat) (p : Program) (A : Memory)
    (period : Nat) (ex : ExecSt)
    (h : (diagnose_oscillation ecfg stdin₁ fuel p A period ex).2.stdin_pos =
      ex.stdin_pos) :
    diagnose_oscillation ecfg stdin₁ fuel p A period ex =
      diagnose_oscillation ecfg stdin₂ fuel p A period ex := by
  simp only [diagnose_oscillation] at h ⊢
  cases hr : collect_states ecfg stdin₁ fuel p (period + 1) A ex <;>
    · rename_i ex'
      rw [hr] at h
      have h' : ex'.stdin_pos = ex.stdin_pos := h
      have hc : (collect_states ecfg stdin₁ fuel p (period + 1) A
          ex).exs.stdin_pos = ex.stdin_pos := by
        rw [hr]; exact h'
      have IH := collect_states_stdin_indep ecfg stdin₁ stdin₂ fuel p
        (period + 1) A ex hc
      rw [← IH, hr]

/-- The standard epoch loop never decreases `stdin_pos`. -/
theorem run_standard_loop_stdin_pos_mono (cfg : TimeLoopConfig)
    (ecfg : ExecutorConfig) (stdin : Nat → Nat) (fuel : Nat) (p : Program) :
    ∀ (remaining epoch : Nat) (A : Memory) (seen : List (Nat × Nat)) (ex : ExecSt),
      ex.stdin_pos ≤
        (run_standard_loop cfg ecfg stdin fuel p remaining epoch A seen ex).2.stdin_pos := by
  intro remaining
  induction remaining with
  | zero => intro epoch A seen ex; exact Nat.le.refl
  | succ remaining ih =>
    intro epoch A seen ex
    simp only [run_standard_loop]
    split
    · exact diagnose_oscillation_stdin_pos_mono ecfg stdin fuel p A _ ex
    · split
      · rename_i r ex' heq
        have hm₁ := run_epoch_stdin_pos_mono ecfg stdin fuel p A ex
        rw [heq] at hm₁
        split
        · split
          · exact hm₁
          · exact Nat.le_trans hm₁ (ih (epoch + 1) r.present _ ex')
        · exact hm₁
        · exact hm₁
        · exact Nat.le_trans hm₁ (ih (epoch + 1) A _ ex')
      · rename_i ex' heq
        have hm₁ := run_epoch_stdin_pos_mono ecfg stdin fuel p A ex
        rw [heq] at hm₁
        exact hm₁
      · rename_i ex' heq
        have hm₁ := run_epoch_stdin_pos_mono ecfg stdin fuel p A ex
        rw [heq] at hm₁
        exact hm₁

/-- The standard epoch loop is independent of the interactive stream when it
does not advance `stdin_pos`. -/
theorem run_standard_loop_stdin_indep (cfg : TimeLoopConfig)
    (ecfg : ExecutorConfig) (stdin₁ stdin₂ : Nat → Nat) (fuel : Nat) (p : Program) :
    ∀ (remaining epoch : Nat) (A : Memory) (seen : List (Nat × Nat)) (ex : ExecSt),
      (run_standard_loop cfg ecfg stdin₁ fuel p remaining epoch A seen
        ex).2.stdin_pos = ex.stdin_pos →
      run_standard_loop cfg ecfg stdin₁ fuel p remaining epoch A seen ex =
        run_standard_loop cfg ecfg stdin₂ fuel p remaining epoch A seen ex := by
  intro remaining
  induction remaining with
  | zero => intro epoch A seen ex; exact fun _ => rfl
  | succ remaining ih =>
    intro epoch A seen ex
    simp only [run_standard_loop]
    split
    · intro h
      exact diagnose_oscillation_stdin_indep ecfg stdin₁ stdin₂ fuel p A _ ex h
    · split
      · rename_i r ex' heq
        split
        · rename_i hst
          split
          · rename_i hveq
            intro h
            have h' : ex'.stdin_pos = ex.stdin_pos := h
            have hepoch : (run_epoch ecfg stdin₁ fuel p A ex).2.stdin_pos =
                ex.stdin_pos := by
              rw [heq]; exact h'
            have IH₁ := run_epoch_stdin_indep ecfg stdin₁ stdin₂ fuel p A ex hepoch
            have E₁ : run_epoch ecfg stdin₂ fuel p A ex = (.result r, ex') :=
              IH₁.symm.trans heq
            simp only [E₁, hst]
            rw [if_pos hveq]
          · rename_i hveq
            intro h
            have h' : (run_standard_loop cfg ecfg stdin₁ fuel p remaining
                (epoch + 1) r.present ((A.state_hash, epoch) :: seen)
                ex').2.stdin_pos = ex.stdin_pos := h
            have hm₁ := run_epoch_stdin_pos_mono ecfg stdin₁ fuel p A ex
            rw [heq] at hm₁
            have hm₁' : ex.stdin_pos ≤ ex'.stdin_pos := hm₁
            have hm₂ := run_standard_loop_stdin_pos_mono cfg ecfg stdin₁ fuel p
              remaining (epoch + 1) r.present ((A.state_hash, epoch) :: seen) ex'
            have hex' : ex'.stdin_pos = ex.stdin_pos := by omega
            have hepoch : (run_epoch ecfg stdin₁ fuel p A ex).2.stdin_pos =
                ex.stdin_pos := by
              rw [heq]; exact hex'
            have IH₁ := run_epoch_stdin_indep ecfg stdin₁ stdin₂ fuel p A ex hepoch
            have E₁ : run_epoch ecfg stdin₂ fuel p A ex = (.result r, ex') :=
              IH₁.symm.trans heq
            have hrec : (run_standard_loop cfg ecfg stdin₁ fuel p remaining
                (epoch + 1) r.present ((A.state_hash, epoch) :: seen)
                ex').2.stdin_pos = ex'.stdin_pos := by
              rw [h']; exact hex'.symm
            have IH₂ := ih (epoch + 1) r.present ((A.state_hash, epoch) :: seen)
              ex' hrec
            simp only [E₁, hst]
            rw [if_neg hveq]
            exact IH₂
        · rename_i hst
          intro h
          have h' : ex'.stdin_pos = ex.stdin_pos := h
          have hepoch : (run_epoch ecfg stdin₁ fuel p A ex).2.stdin_pos =
              ex.stdin_pos := by
            rw [heq]; exact h'
          have IH₁ := run_epoch_stdin_indep ecfg stdin₁ stdin₂ fuel p A ex hepoch
          have E₁ : run_epoch ecfg stdin₂ fuel p A ex = (.result r, ex') :=
            IH₁.symm.trans heq
          simp only [E₁, hst]
        · rename_i hst
          intro h
          have h' : ex'.stdin_pos = ex.stdin_pos := h
          have hepoch : (run_epoch ecfg stdin₁ fuel p A ex).2.stdin_pos =
              ex.stdin_pos := by
            rw [heq]; exact h'
          have IH₁ := run_epoch_stdin_indep ecfg stdin₁ stdin₂ fuel p A ex hepoch
          have E₁ : run_epoch ecfg stdin₂ fuel p A ex = (.result r, ex') :=
            IH₁.symm.trans heq
          simp only [E₁, hst]
        · rename_i hst
          intro h
          have h' : (run_standard_loop cfg ecfg stdin₁ fuel p remaining
              (epoch + 1) A ((A.state_hash, epoch) :: seen)
              ex').2.stdin_pos = ex.stdin_pos := h
          have hm₁ := run_epoch_stdin_pos_mono ecfg stdin₁ fuel p A ex
          rw [heq] at hm₁
          have hm₁' : ex.stdin_pos ≤ ex'.stdin_pos := hm₁
          have hm₂ := run_standard_loop_stdin_pos_mono cfg ecfg stdin₁ fuel p
            remaining (epoch + 1) A ((A.state_hash, epoch) :: seen) ex'
          have hex' : ex'.stdin_pos = ex.stdin_pos := by omega
          have hepoch : (run_epoch ecfg stdin₁ fuel p A ex).2.stdin_pos =
              ex.stdin_pos := by
            rw [heq]; exact hex'
          have IH₁ := run_epoch_stdin_indep ecfg stdin₁ stdin₂ fuel p A ex hepoch
          have E₁ : run_epoch ecfg stdin₂ fuel p A ex = (.result r, ex') :=
            IH₁.symm.trans heq
          have hrec : (run_standard_loop cfg ecfg stdin₁ fuel p remaining
              (epoch + 1) A ((A.state_hash, epoch) :: seen)
              ex').2.stdin_pos = ex'.stdin_pos := by
            rw [h']; exact hex'.symm
          have IH₂ := ih (epoch + 1) A ((A.state_hash, epoch) :: seen) ex' hrec
          simp only [E₁, hst]
          exact IH₂
      · rename_i ex' heq
        intro h
        have h' : ex'.stdin_pos = ex.stdin_pos := h
        have hepoch : (run_epoch ecfg stdin₁ fuel p A ex).2.stdin_pos =
            ex.stdin_pos := by
          rw [heq]; exact h'
        have IH₁ := run_epoch_stdin_indep ecfg stdin₁ stdin₂ fuel p A ex hepoch
        have E₁ : run_epoch ecfg stdin₂ fuel p A ex = (.panic, ex') :=
          IH₁.symm.trans heq
        simp only [E₁]
      · rename_i ex' heq
        intro h
        have h' : ex'.stdin_pos = ex.stdin_pos := h
        have hepoch : (run_epoch ecfg stdin₁ fuel p A ex).2.stdin_pos =
            ex.stdin_pos := by
          rw [heq]; exact h'
        have IH₁ := run_epoch_stdin_indep ecfg stdin₁ stdin₂ fuel p A ex hepoch
        have E₁ : run_epoch ecfg stdin₂ fuel p A ex = (.fuelout, ex') :=
          IH₁.symm.trans heq
        simp only [E₁]

/-- The diagnostic epoch loop never decreases `stdin_pos`. -/
theorem run_diagnostic_loop_stdin_pos_mono (cfg : TimeLoopConfig)
    (ecfg : ExecutorConfig) (stdin : Nat → Nat) (fuel : Nat) (p : Program) :
    ∀ (remaining epoch : Nat) (A : Memory) (traj : List Memory)
      (seen : List (Nat × Nat)) (ex : ExecSt),
      ex.stdin_pos ≤
        (run_diagnostic_loop cfg ecfg stdin fuel p remaining epoch A traj seen
          ex).2.stdin_pos := by
  intro remaining
  induction remaining with
  | zero => intro epoch A traj seen ex; exact Nat.le.refl
  | succ remaining ih =>
    intro epoch A traj seen ex
    simp only [run_diagnostic_loop]
    split
    · exact Nat.le.refl
    · split
      · exact Nat.le.refl
      · split
        · rename_i r ex' heq
          have hm₁ := run_epoch_stdin_pos_mono ecfg stdin fuel p A ex
          rw [heq] at hm₁
          split
          · split
            · exact hm₁
            · exact Nat.le_trans hm₁ (ih (epoch + 1) r.present _ _ ex')
          · exact hm₁
          · exact hm₁
          · exact Nat.le_trans hm₁ (ih (epoch + 1) A _ _ ex')
        · rename_i ex' heq
          have hm₁ := run_epoch_stdin_pos_mono ecfg stdin fuel p A ex
          rw [heq] at hm₁
          exact hm₁
        · rename_i ex' heq
          have hm₁ := run_epoch_stdin_pos_mono ecfg stdin fuel p A ex
          rw [heq] at hm₁
          exact hm₁

/-- The diagnostic epoch loop is independent of the interactive stream when
it does not advance `stdin_pos`. -/
theorem run_diagnostic_loop_stdin_indep (cfg : TimeLoopConfig)
    (ecfg : ExecutorConfig) (stdin₁ stdin₂ : Nat → Nat) (fuel : Nat) (p : Program) :
    ∀ (remaining epoch : Nat) (A : Memory) (traj : List Memory)
      (seen : List (Nat × Nat)) (ex : ExecSt),
      (run_diagnostic_loop cfg ecfg stdin₁ fuel p remaining epoch A traj seen
        ex).2.stdin_pos = ex.stdin_pos →
      run_diagnostic_loop cfg ecfg stdin₁ fuel p remaining epoch A traj seen ex =
        run_diagnostic_loop cfg ecfg stdin₂ fuel p remaining epoch A traj seen ex := by
  intro remaining
  induction remaining with
  | zero => intro epoch A traj seen ex; exact fun _ => rfl
  | succ remaining ih =>
    intro epoch A traj seen ex
    simp only [run_diagnostic_loop]
    split
    · exact fun _ => rfl
    · split
      · exact fun _ => rfl
      · split
        · rename_i r ex' heq
          split
          · rename_i hst
            split
            · rename_i hveq
              intro h
              have h' : ex'.stdin_pos = ex.stdin_pos := h
              have hepoch : (run_epoch ecfg stdin₁ fuel p A ex).2.stdin_pos =
                  ex.stdin_pos := by
                rw [heq]; exact h'
              have IH₁ := run_epoch_stdin_indep ecfg stdin₁ stdin₂ fuel p A ex
                hepoch
              have E₁ : run_epoch ecfg stdin₂ fuel p A ex = (.result r, ex') :=
                IH₁.symm.trans heq
              simp only [E₁, hst]
              rw [if_pos hveq]
            · rename_i hveq
              intro h
              have h' : (run_diagnostic_loop cfg ecfg stdin₁ fuel p remaining
                  (epoch + 1) r.present (traj ++ [A])
                  ((A.state_hash, epoch) :: seen) ex').2.stdin_pos =
                  ex.stdin_pos := h
              have hm₁ := run_epoch_stdin_pos_mono ecfg stdin₁ fuel p A ex
              rw [heq] at hm₁
              have hm₁' : ex.stdin_pos ≤ ex'.stdin_pos := hm₁
              have hm₂ := run_diagnostic_loop_stdin_pos_mono cfg ecfg stdin₁
                fuel p remaining (epoch + 1) r.present (traj ++ [A])
                ((A.state_hash, epoch) :: seen) ex'
              have hex' : ex'.stdin_pos = ex.stdin_pos := by omega
              have hepoch : (run_epoch ecfg stdin₁ fuel p A ex).2.stdin_pos =
                  ex.stdin_pos := by
                rw [heq]; exact hex'
              have IH₁ := run_epoch_stdin_indep ecfg stdin₁ stdin₂ fuel p A ex
                hepoch
              have E₁ : run_epoch ecfg stdin₂ fuel p A ex = (.result r, ex') :=
                IH₁.symm.trans heq
              have hrec : (run_diagnostic_loop cfg ecfg stdin₁ fuel p remaining
                  (epoch + 1) r.present (traj ++ [A])
                  ((A.state_hash, epoch) :: seen) ex').2.stdin_pos =
                  ex'.stdin_pos := by
                rw [h']; exact hex'.symm
              have IH₂ := ih (epoch + 1) r.present (traj ++ [A])
                ((A.state_hash, epoch) :: seen) ex' hrec
              simp only [E₁, hst]
              rw [if_neg hveq]
              exact IH₂
          · rename_i hst
            intro h
            have h' : ex'.stdin_pos = ex.stdin_pos := h
            have hepoch : (run_epoch ecfg stdin₁ fuel p A ex).2.stdin_pos =
                ex.stdin_pos := by
              rw [heq]; exact h'
            have IH₁ := run_epoch_stdin_indep ecfg stdin₁ stdin₂ fuel p A ex
              hepoch
            have E₁ : run_epoch ecfg stdin₂ fuel p A ex = (.result r, ex') :=
              IH₁.symm.trans heq
            simp only [E₁, hst]
          · rename_i hst
            intro h
            have h' : ex'.stdin_pos = ex.stdin_pos := h
            have hepoch : (run_epoch ecfg stdin₁ fuel p A ex).2.stdin_pos =
                ex.stdin_pos := by
              rw [heq]; exact h'
            have IH₁ := run_epoch_stdin_indep ecfg stdin₁ stdin₂ fuel p A ex
              hepoch
            have E₁ : run_epoch ecfg stdin₂ fuel p A ex = (.result r, ex') :=
              IH₁.symm.trans heq
            simp only [E₁, hst]
          · rename_i hst
            intro h
            have h' : (run_diagnostic_loop cfg ecfg stdin₁ fuel p remaining
                (epoch + 1) A (traj ++ [A]) ((A.state_hash, epoch) :: seen)
                ex').2.stdin_pos = ex.stdin_pos := h
            have hm₁ := run_epoch_stdin_pos_mono ecfg stdin₁ fuel p A ex
            rw [heq] at hm₁
            have hm₁' : ex.stdin_pos ≤ ex'.stdin_pos := hm₁
            have hm₂ := run_diagnostic_loop_stdin_pos_mono cfg ecfg stdin₁ fuel
              p remaining (epoch + 1) A (traj ++ [A])
              ((A.state_hash, epoch) :: seen) ex'
            have hex' : ex'.stdin_pos = ex.stdin_pos := by omega
            have hepoch : (run_epoch ecfg stdin₁ fuel p A ex).2.stdin_pos =
                ex.stdin_pos := by
              rw [heq]; exact hex'
            have IH₁ := run_epoch_stdin_indep ecfg stdin₁ stdin₂ fuel p A ex
              hepoch
            have E₁ : run_epoch ecfg stdin₂ fuel p A ex = (.result r, ex') :=
              IH₁.symm.trans heq
            have hrec : (run_diagnostic_loop cfg ecfg stdin₁ fuel p remaining
                (epoch + 1) A (traj ++ [A]) ((A.state_hash, epoch) :: seen)
                ex').2.stdin_pos = ex'.stdin_pos := by
              rw [h']; exact hex'.symm
            have IH₂ := ih (epoch + 1) A (traj ++ [A])
              ((A.state_hash, epoch) :: seen) ex' hrec
            simp only [E₁, hst]
            exact IH₂
        · rename_i ex' heq
          intro h
          have h' : ex'.stdin_pos = ex.stdin_pos := h
          have hepoch : (run_epoch ecfg stdin₁ fuel p A ex).2.stdin_pos =
              ex.stdin_pos := by
            rw [heq]; exact h'
          have IH₁ := run_epoch_stdin_indep ecfg stdin₁ stdin₂ fuel p A ex hepoch
          have E₁ : run_epoch ecfg stdin₂ fuel p A ex = (.panic, ex') :=
            IH₁.symm.trans heq
          simp only [E₁]
        · rename_i ex' heq
          intro h
          have h' : ex'.stdin_pos = ex.stdin_pos := h
          have hepoch : (run_epoch ecfg stdin₁ fuel p A ex).2.stdin_pos =
              ex.stdin_pos := by
            rw [heq]; exact h'
          have IH₁ := run_epoch_stdin_indep ecfg stdin₁ stdin₂ fuel p A ex hepoch
          have E₁ : run_epoch ecfg stdin₂ fuel p A ex = (.fuelout, ex') :=
            IH₁.symm.trans heq
          simp only [E₁]

/-- The pure epoch loop never decreases `stdin_pos`. -/
theorem run_pure_loop_stdin_pos_mono (ecfg : ExecutorConfig) (stdin : Nat → Nat)
    (fuel : Nat) (p : Program) :
    ∀ (remaining epoch : Nat) (A : Memory) (ex : ExecSt),
      ex.stdin_pos ≤
        (run_pure_loop ecfg stdin fuel p remaining epoch A ex).2.stdin_pos := by
  intro remaining
  induction remaining with
  | zero => intro epoch A ex; exact Nat.le.refl
  | succ remaining ih =>
    intro epoch A ex
    simp only [run_pure_loop]
    split
    · rename_i r ex' heq
      have hm₁ := run_epoch_stdin_pos_mono ecfg stdin fuel p A ex
      rw [heq] at hm₁
      split
      · split
        · exact hm₁
        · split
          · exact hm₁
          · exact Nat.le_trans hm₁ (ih (epoch + 1) r.present ex')
      · exact hm₁
      · exact hm₁
      · split
        · exact hm₁
        · exact Nat.le_trans hm₁ (ih (epoch + 1) A ex')
    · rename_i ex' heq
      have hm₁ := run_epoch_stdin_pos_mono ecfg stdin fuel p A ex
      rw [heq] at hm₁
      exact hm₁
    · rename_i ex' heq
      have hm₁ := run_epoch_stdin_pos_mono ecfg stdin fuel p A ex
      rw [heq] at hm₁
      exact hm₁

/-- The pure epoch loop is independent of the interactive stream when it
does not advance `stdin_pos`. -/
theorem run_pure_loop_stdin_indep (ecfg : ExecutorConfig)
    (stdin₁ stdin₂ : Nat → Nat) (fuel : Nat) (p : Program) :
    ∀ (remaining epoch : Nat) (A : Memory) (ex : ExecSt),
      (run_pure_loop ecfg stdin₁ fuel p remaining epoch A ex).2.stdin_pos =
        ex.stdin_pos →
      run_pure_loop ecfg stdin₁ fuel p remaining epoch A ex =
        run_pure_loop ecfg stdin₂ fuel p remaining epoch A ex := by
  intro remaining
  induction remaining with
  | zero => intro epoch A ex; exact fun _ => rfl
  | succ remaining ih =>
    intro epoch A ex
    simp only [run_pure_loop]
    split
    · rename_i r ex' heq
      split
      · rename_i hst
        split
        · rename_i hveq
          intro h
          have h' : ex'.stdin_pos = ex.stdin_pos := h
          have hepoch : (run_epoch ecfg stdin₁ fuel p A ex).2.stdin_pos =
              ex.stdin_pos := by
            rw [heq]; exact h'
          have IH₁ := run_epoch_stdin_indep ecfg stdin₁ stdin₂ fuel p A ex hepoch
          have E₁ : run_epoch ecfg stdin₂ fuel p A ex = (.result r, ex') :=
            IH₁.symm.trans heq
          simp only [E₁, hst]
          rw [if_pos hveq]
        · rename_i hveq
          split
          · rename_i htm
            intro h
            have h' : ex'.stdin_pos = ex.stdin_pos := h
            have hepoch : (run_epoch ecfg stdin₁ fuel p A ex).2.stdin_pos =
                ex.stdin_pos := by
              rw [heq]; exact h'
            have IH₁ := run_epoch_stdin_indep ecfg stdin₁ stdin₂ fuel p A ex
              hepoch
            have E₁ : run_epoch ecfg stdin₂ fuel p A ex = (.result r, ex') :=
              IH₁.symm.trans heq
            simp only [E₁, hst]
            rw [if_neg hveq]
          · rename_i htm
            intro h
            have h' : (run_pure_loop ecfg stdin₁ fuel p remaining (epoch + 1)
                r.present ex').2.stdin_pos = ex.stdin_pos := h
            have hm₁ := run_epoch_stdin_pos_mono ecfg stdin₁ fuel p A ex
            rw [heq] at hm₁
            have hm₁' : ex.stdin_pos ≤ ex'.stdin_pos := hm₁
            have hm₂ := run_pure_loop_stdin_pos_mono ecfg stdin₁ fuel p
              remaining (epoch + 1) r.present ex'
            have hex' : ex'.stdin_pos = ex.stdin_pos := by omega
            have hepoch : (run_epoch ecfg stdin₁ fuel p A ex).2.stdin_pos =
                ex.stdin_pos := by
              rw [heq]; exact hex'
            have IH₁ := run_epoch_stdin_indep ecfg stdin₁ stdin₂ fuel p A ex
              hepoch
            have E₁ : run_epoch ecfg stdin₂ fuel p A ex = (.result r, ex') :=
              IH₁.symm.trans heq
            have hrec : (run_pure_loop ecfg stdin₁ fuel p remaining (epoch + 1)
                r.present ex').2.stdin_pos = ex'.stdin_pos := by
              rw [h']; exact hex'.symm
            have IH₂ := ih (epoch + 1) r.present ex' hrec
            simp only [E₁, hst]
            rw [if_neg hveq]
            exact IH₂
      · rename_i hst
        intro h
        have h' : ex'.stdin_pos = ex.stdin_pos := h
        have hepoch : (run_epoch ecfg stdin₁ fuel p A ex).2.stdin_pos =
            ex.stdin_pos := by
          rw [heq]; exact h'
        have IH₁ := run_epoch_stdin_indep ecfg stdin₁ stdin₂ fuel p A ex hepoch
        have E₁ : run_epoch ecfg stdin₂ fuel p A ex = (.result r, ex') :=
          IH₁.symm.trans heq
        simp only [E₁, hst]
      · rename_i hst
        intro h
        have h' : ex'.stdin_pos = ex.stdin_pos := h
        have hepoch : (run_epoch ecfg stdin₁ fuel p A ex).2.stdin_pos =
            ex.stdin_pos := by
          rw [heq]; exact h'
        have IH₁ := run_epoch_stdin_indep ecfg stdin₁ stdin₂ fuel p A ex hepoch
        have E₁ : run_epoch ecfg stdin₂ fuel p A ex = (.result r, ex') :=
          IH₁.symm.trans heq
        simp only [E₁, hst]
      · rename_i hst
        split
        · rename_i htm
          intro h
          have h' : ex'.stdin_pos = ex.stdin_pos := h
          have hepoch : (run_epoch ecfg stdin₁ fuel p A ex).2.stdin_pos =
              ex.stdin_pos := by
            rw [heq]; exact h'
          have IH₁ := run_epoch_stdin_indep ecfg stdin₁ stdin₂ fuel p A ex hepoch
          have E₁ : run_epoch ecfg stdin₂ fuel p A ex = (.result r, ex') :=
            IH₁.symm.trans heq
          simp only [E₁, hst]
        · rename_i htm
          intro h
          have h' : (run_pure_loop ecfg stdin₁ fuel p remaining (epoch + 1)
              A ex').2.stdin_pos = ex.stdin_pos := h
          have hm₁ := run_epoch_stdin_pos_mono ecfg stdin₁ fuel p A ex
          rw [heq] at hm₁
          have hm₁' : ex.stdin_pos ≤ ex'.stdin_pos := hm₁
          have hm₂ := run_pure_loop_stdin_pos_mono ecfg stdin₁ fuel p remaining
            (epoch + 1) A ex'
          have hex' : ex'.stdin_pos = ex.stdin_pos := by omega
          have hepoch : (run_epoch ecfg stdin₁ fuel p A ex).2.stdin_pos =
              ex.stdin_pos := by
            rw [heq]; exact hex'
          have IH₁ := run_epoch_stdin_indep ecfg stdin₁ stdin₂ fuel p A ex hepoch
          have E₁ : run_epoch ecfg stdin₂ fuel p A ex = (.result r, ex') :=
            IH₁.symm.trans heq
          have hrec : (run_pure_loop ecfg stdin₁ fuel p remaining (epoch + 1)
              A ex').2.stdin_pos = ex'.stdin_pos := by
            rw [h']; exact hex'.symm
          have IH₂ := ih (epoch + 1) A ex' hrec
          simp only [E₁, hst]
          exact IH₂
    · rename_i ex' heq
      intro h
      have h' : ex'.stdin_pos = ex.stdin_pos := h
      have hepoch : (run_epoch ecfg stdin₁ fuel p A ex).2.stdin_pos =
          ex.stdin_pos := by
        rw [heq]; exact h'
      have IH₁ := run_epoch_stdin_indep ecfg stdin₁ stdin₂ fuel p A ex hepoch
      have E₁ : run_epoch ecfg stdin₂ fuel p A ex = (.panic, ex') :=
        IH₁.symm.trans heq
      simp only [E₁]
    · rename_i ex' heq
      intro h
      have h' : ex'.stdin_pos = ex.stdin_pos := h
      have hepoch : (run_epoch ecfg stdin₁ fuel p A ex).2.stdin_pos =
          ex.stdin_pos := by
        rw [heq]; exact h'
      have IH₁ := run_epoch_stdin_indep ecfg stdin₁ stdin₂ fuel p A ex hepoch
      have E₁ : run_epoch ecfg stdin₂ fuel p A ex = (.fuelout, ex') :=
        IH₁.symm.trans heq
      simp only [E₁]

/-- The trivial-consistency path is independent of the interactive stream
when it does not advance `stdin_pos`. -/
theorem run_trivial_stdin_indep (ecfg : ExecutorConfig)
    (stdin₁ stdin₂ : Nat → Nat) (fuel : Nat) (p : Program) (ex : ExecSt)
    (h : (run_trivial ecfg stdin₁ fuel p ex).2.stdin_pos = ex.stdin_pos) :
    run_trivial ecfg stdin₁ fuel p ex = run_trivial ecfg stdin₂ fuel p ex := by
  simp only [run_trivial] at h ⊢
  cases hr : run_epoch ecfg stdin₁ fuel p Memory.new ex with
  | mk step ex' =>
    rw [hr] at h
    have h' : ex'.stdin_pos = ex.stdin_pos := by
      cases step with
      | result r => cases hst : r.status <;> simp only [hst] at h <;> exact h
      | panic => exact h
      | fuelout => exact h
    have hepoch : (run_epoch ecfg stdin₁ fuel p Memory.new ex).2.stdin_pos =
        ex.stdin_pos := by
      rw [hr]; exact h'
    have IH := run_epoch_stdin_indep ecfg stdin₁ stdin₂ fuel p Memory.new ex
      hepoch
    rw [← IH, hr]

/-- C6: the driver is deterministic when the interactive `stdin` fallback is
never reached.  If a run of `TimeLoop::run` ends with `stdin_pos` unchanged
— i.e. every executed `Input` was served from the frozen input list of the
configuration — then the run's entire result (the `ConvergenceStatus` in
particular) is the same for every interactive stream. -/
theorem C6_driver_deterministic_without_interactive_input
    (cfg : TimeLoopConfig) (ecfg : ExecutorConfig) (stdin₁ stdin₂ : Nat → Nat)
    (fuel : Nat) (p : Program) (ex : ExecSt)
    (h : (TimeLoop.run cfg ecfg stdin₁ fuel p ex).2.stdin_pos = ex.stdin_pos) :
    TimeLoop.run cfg ecfg stdin₁ fuel p ex = TimeLoop.run cfg ecfg stdin₂ fuel p ex := by
  simp only [TimeLoop.run] at h ⊢
  by_cases ht : p.is_trivially_consistent = true
  · rw [if_pos ht] at h
    rw [if_pos ht, if_pos ht]
    exact run_trivial_stdin_indep ecfg stdin₁ stdin₂ fuel p ex h
  · rw [if_neg ht] at h
    rw [if_neg ht, if_neg ht]
    cases hm : cfg.mode with
    | Standard =>
      rw [hm] at h
      exact run_standard_loop_stdin_indep cfg ecfg stdin₁ stdin₂ fuel p
        cfg.max_epochs 0 (create_initial_anamnesis cfg) [] ex h
    | Diagnostic =>
      rw [hm] at h
      exact run_diagnostic_loop_stdin_indep cfg ecfg stdin₁ stdin₂ fuel p
        cfg.max_epochs 0 (create_initial_anamnesis cfg) [] [] ex h
    | Pure =>
      rw [hm] at h
      exact run_pure_loop_stdin_indep ecfg stdin₁ stdin₂ fuel p 1000001 0
        (create_initial_anamnesis cfg) ex h

/-- Witness for C6: the one-epoch `Paradox` program consumes no interactive
input, so its run result is the same for the all-zero and the all-one
interactive streams. -/
theorem C6_driver_deterministic_without_interactive_input_witness :
    (TimeLoop.run TimeLoopConfig.default default_run_ecfg stdin_zero 100
      paradox_program ex_init).2.stdin_pos = ex_init.stdin_pos ∧
    TimeLoop.run TimeLoopConfig.default default_run_ecfg stdin_zero 100
      paradox_program ex_init =
    TimeLoop.run TimeLoopConfig.default default_run_ecfg (fun _ => 1) 100
      paradox_program ex_init :=
  ⟨rfl, C6_driver_deterministic_without_interactive_input TimeLoopConfig.default
    default_run_ecfg stdin_zero (fun _ => 1) 100 paradox_program ex_init rfl⟩

end Ourochronos
